import Mathlib

/-!
Verification of the ListenLater backend core against its specification.

The Python sources under src/backend/app are shallowly embedded as Lean
definitions: pure string processing becomes functions on List Char / String,
the strategy cascade of article_fetch.py becomes a function over an
environment of collaborator outcomes, and the stateful job pipeline of
jobs.py becomes a pure function from a collaborator environment to the final
job state together with the ordered trace of progress writes and events.
Machine-level details that no claim touches (JSON serialisation of event
detail payloads, sqlite storage, HTTP transport) are modelled by the values
the code extracts from them, as noted in the doc comments.
-/

/-! ## Python string primitives (utils.py and friends) -/

/-- Whitespace characters matched by the regex class backslash-s and by
str.strip in CPython, restricted to the ASCII range (the inputs handled by
the repository are covered by this set). -/
def pyWs (c : Char) : Bool :=
  c = ' ' || c = '\t' || c = '\n' || c = '\r' || c = '\x0b' || c = '\x0c'

/-- Worker for collapseWs; the flag records whether the previous character
was part of a whitespace run (in which case further whitespace emits
nothing). -/
def collapseWsAux : Bool → List Char → List Char
  | _, [] => []
  | inWs, c :: rest =>
    if pyWs c then
      (if inWs then [] else [' ']) ++ collapseWsAux true rest
    else c :: collapseWsAux false rest

/-- Models re.sub applied with the whitespace-run pattern and a single-space
replacement: every maximal run of whitespace becomes one space. -/
def collapseWs (l : List Char) : List Char :=
  collapseWsAux false l

/-- Models str.strip with no argument: removes leading and trailing
whitespace. -/
def pyStrip (l : List Char) : List Char :=
  ((l.dropWhile pyWs).reverse.dropWhile pyWs).reverse

/-- String-level wrapper for str.strip. -/
def pyStripS (s : String) : String :=
  ⟨pyStrip s.data⟩

/-- Models utils.compact_text: collapse whitespace runs to single spaces,
strip, then slice to max_chars code points. -/
def compact_text (value : String) (maxChars : Nat) : String :=
  ⟨(pyStrip (collapseWs value.data)).take maxChars⟩

/-- Python truthiness of a string: non-empty. -/
def pyTruthy (s : String) : Bool :=
  s ≠ ""

example : compact_text "  a   b  " 100 = "a b" := by decide
example : compact_text "a b" 2 = "a " := by decide
example : compact_text "a " 2 = "a" := by decide

/-! ## HTML stripping (article_fetch._strip_html_tags) -/

/-- Case-insensitive literal-prefix match; on success returns the remainder
after the prefix. -/
def matchPrefixCI : List Char → List Char → Option (List Char)
  | [], rest => some rest
  | _ :: _, [] => none
  | p :: ps, c :: cs => if c.toLower = p.toLower then matchPrefixCI ps cs else none

/-- The character class of the script/style block patterns. The source
writes the pattern in a raw string with doubled backslashes, so the class
consists of a literal backslash, the letter s, and the letter S — not "any
character including newline". -/
def scriptClassChar (c : Char) : Bool :=
  c = '\\' || c = 's' || c = 'S'

/-- The lazy middle of the block patterns: a shortest run of
scriptClassChar characters followed by the closing tag (case-insensitive).
Returns the remainder after the closing tag. The closing tag is non-empty
in every use, so the empty-list case returns none. -/
def lazyClassClose (close : List Char) : List Char → Option (List Char)
  | [] => none
  | c :: rest =>
    match matchPrefixCI close (c :: rest) with
    | some after => some after
    | none => if scriptClassChar c then lazyClassClose close rest else none

/-- One global substitution pass replacing every leftmost non-overlapping
match of openTag, a lazy class run, and closeTag by a single space. Fuel
bounds the recursion; callers pass the list length, which suffices because
every step consumes at least one character. -/
def subBlockAux (openTag close : List Char) : Nat → List Char → List Char
  | 0, cs => cs
  | _ + 1, [] => []
  | fuel + 1, c :: cs =>
    match (matchPrefixCI openTag (c :: cs)).bind (lazyClassClose close) with
    | some rest => ' ' :: subBlockAux openTag close fuel rest
    | none => c :: subBlockAux openTag close fuel cs

/-- Entry point of one block-substitution pass. -/
def subBlock (openTag close cs : List Char) : List Char :=
  subBlockAux openTag close cs.length cs

/-- Matches the remaining-tag pattern at the head of the list: an opening
angle bracket, one or more characters other than a closing angle bracket,
then the closing bracket. Returns the remainder. -/
def matchTag : List Char → Option (List Char)
  | '<' :: rest =>
    match rest.dropWhile (fun c => !(c = '>')) with
    | '>' :: tail =>
      if (rest.takeWhile (fun c => !(c = '>'))).isEmpty then none else some tail
    | _ => none
  | _ => none

/-- Global substitution pass for the remaining-tag pattern, fuel-bounded as
above. -/
def subTagsAux : Nat → List Char → List Char
  | 0, cs => cs
  | _ + 1, [] => []
  | fuel + 1, c :: cs =>
    match matchTag (c :: cs) with
    | some rest => ' ' :: subTagsAux fuel rest
    | none => c :: subTagsAux fuel cs

/-- Models article_fetch._strip_html_tags: one substitution pass for script
blocks and one for style blocks (both with the restricted character class
exactly as the source's raw-string pattern has it), then removal of all
remaining tags, then whitespace normalisation and strip. -/
def strip_html_tags (html : String) : String :=
  let t1 := subBlock "<script".data "</script>".data html.data
  let t2 := subBlock "<style".data "</style>".data t1
  let t3 := subTagsAux t2.length t2
  ⟨pyStrip (collapseWs t3)⟩

example : strip_html_tags "<b>bold</b> text" = "bold text" := by decide
example : strip_html_tags "<scriptsss</script>x" = "x" := by decide
example : strip_html_tags "<script>var x=1;</script>" = "var x=1;" := by decide

/-! ## URL parsing model (urllib.parse as used by utils.py) -/

/-- Case-sensitive literal-prefix match; on success returns the remainder
after the prefix. -/
def matchPrefixLit : List Char → List Char → Option (List Char)
  | [], rest => some rest
  | _ :: _, [] => none
  | p :: ps, c :: cs => if c = p then matchPrefixLit ps cs else none

/-- Substring containment, modelling the Python membership operator on
strings. -/
def containsSub (needle : List Char) : List Char → Bool
  | [] => needle.isEmpty
  | c :: cs => (matchPrefixLit needle (c :: cs)).isSome || containsSub needle cs

/-- Splits at the first occurrence of a character: the part before it and,
when present, the part after it. -/
def breakOnChar (t : Char) (l : List Char) : List Char × Option (List Char) :=
  (l.takeWhile (fun c => !(c = t)),
   match l.dropWhile (fun c => !(c = t)) with
   | [] => none
   | _ :: rest => some rest)

/-- Characters allowed in a URL scheme by urllib. -/
def schemeChar (c : Char) : Bool :=
  c.isAlphanum || c = '+' || c = '-' || c = '.'

/-- The six components produced by urlparse. -/
structure UrlParts where
  scheme : List Char
  netloc : List Char
  path : List Char
  params : List Char
  query : List Char
  fragment : List Char

/-- Scheme extraction of urlsplit: a valid scheme before the first colon is
split off and lower-cased, otherwise the URL is left whole. -/
def splitSchemeUrl (cs : List Char) : List Char × List Char :=
  match cs.dropWhile (fun c => !(c = ':')) with
  | [] => ([], cs)
  | _ :: rest =>
    match cs.takeWhile (fun c => !(c = ':')) with
    | [] => ([], cs)
    | c0 :: tail =>
      if c0.isAlpha && (c0 :: tail).all schemeChar then ((c0 :: tail).map Char.toLower, rest)
      else ([], cs)

/-- Characters ending the network-location component. -/
def netlocStop (c : Char) : Bool :=
  c = '/' || c = '?' || c = '#'

/-- Network-location extraction of urlsplit: after a double slash, up to the
first slash, question mark, or hash. -/
def splitNetloc (cs : List Char) : List Char × List Char :=
  match cs with
  | '/' :: '/' :: rest =>
    (rest.takeWhile (fun c => !(netlocStop c)), rest.dropWhile (fun c => !(netlocStop c)))
  | _ => ([], cs)

/-- The index after which the last path segment starts. -/
def lastSlashIdx (path : List Char) : Nat :=
  path.length - 1 - path.reverse.findIdx (fun c => c = '/')

/-- The params split of urlparse: the last path segment is split at its
first semicolon, when it has one. -/
def splitParamsL (path : List Char) : List Char × List Char :=
  if path.contains ';' then
    if path.contains '/' then
      if (path.drop (lastSlashIdx path)).contains ';' then
        (path.take (lastSlashIdx path) ++
           (path.drop (lastSlashIdx path)).takeWhile (fun c => !(c = ';')),
         ((path.drop (lastSlashIdx path)).dropWhile (fun c => !(c = ';'))).drop 1)
      else (path, [])
    else
      (path.takeWhile (fun c => !(c = ';')), (path.dropWhile (fun c => !(c = ';'))).drop 1)
  else (path, [])

/-- Models urllib.parse.urlparse for the behaviour remove_tracking_params
relies on. CPython additionally raises on unbalanced brackets in the
network location; that error path is not modelled. -/
def urlparseL (cs : List Char) : UrlParts :=
  let sr := splitSchemeUrl cs
  let nr := splitNetloc sr.2
  let fr := breakOnChar '#' nr.2
  let qr := breakOnChar '?' fr.1
  let pp := splitParamsL qr.1
  ⟨sr.1, nr.1, pp.1, pp.2, qr.2.getD [], fr.2.getD []⟩

/-- Splits a list on every occurrence of a separator character, as str.split
does. -/
def splitOnCharAux (t : Char) : List Char → List Char → List (List Char)
  | acc, [] => [acc.reverse]
  | acc, c :: cs =>
    if c = t then acc.reverse :: splitOnCharAux t [] cs
    else splitOnCharAux t (c :: acc) cs

/-- Numeric value of a hexadecimal digit (code points 48-57 are the
decimal digits, 97-102 the lower-case letters, 65-70 the upper-case
letters). -/
def hexVal (c : Char) : Option Nat :=
  if 48 ≤ c.toNat && c.toNat ≤ 57 then some (c.toNat - 48)
  else if 97 ≤ c.toNat && c.toNat ≤ 102 then some (c.toNat - 87)
  else if 65 ≤ c.toNat && c.toNat ≤ 70 then some (c.toNat - 55)
  else none

/-- Models urllib.parse.unquote on a query component. Percent escapes of
ASCII bytes decode to that character; bytes of multi-byte UTF-8 sequences
are modelled per byte by the replacement character (CPython decodes runs of
escapes as UTF-8 with errors replaced; no claim proved here depends on
non-ASCII escape contents). Malformed escapes stay literal, as in CPython. -/
def unquoteL : List Char → List Char
  | [] => []
  | '%' :: h1 :: h2 :: rest =>
    (match hexVal h1, hexVal h2 with
     | some a, some b =>
       let byte := 16 * a + b
       (if byte < 128 then Char.ofNat byte else '�') :: unquoteL rest
     | _, _ => '%' :: unquoteL (h1 :: h2 :: rest))
  | c :: rest => c :: unquoteL rest

/-- Models urllib.parse.parse_qsl with keep_blank_values set, as
remove_tracking_params calls it: split on ampersands, split each field at
its first equals sign (a missing value becomes empty), replace plus by
space, unquote. -/
def parse_qsl (query : List Char) : List (List Char × List Char) :=
  (splitOnCharAux '&' [] query).filterMap (fun nv =>
    if nv.isEmpty then none
    else
      let name := nv.takeWhile (fun c => !(c = '='))
      let value := (nv.dropWhile (fun c => !(c = '='))).drop 1
      some (unquoteL (name.map (fun c => if c = '+' then ' ' else c)),
            unquoteL (value.map (fun c => if c = '+' then ' ' else c))))

/-- Bytes that quote_plus passes through unescaped: ASCII letters, digits,
underscore, period, hyphen, tilde. -/
def alwaysSafeByte (b : Nat) : Bool :=
  (48 ≤ b && b ≤ 57) || (65 ≤ b && b ≤ 90) || (97 ≤ b && b ≤ 122) ||
    b = 95 || b = 46 || b = 45 || b = 126

/-- Upper-case hexadecimal digit. -/
def hexDigitUpper (n : Nat) : Char :=
  if n < 10 then Char.ofNat (48 + n) else if n < 16 then Char.ofNat (55 + n) else '0'

/-- Percent-encoding of one UTF-8 byte under quote_plus with an empty safe
set: always-safe bytes stay, a space becomes a plus, everything else is
escaped in upper-case hex. -/
def quotePlusByte (b : Nat) : List Char :=
  if alwaysSafeByte b then [Char.ofNat b]
  else if b = 32 then ['+']
  else ['%', hexDigitUpper (b / 16), hexDigitUpper (b % 16)]

/-- UTF-8 encoding of one character as a byte list. -/
def utf8Bytes (c : Char) : List Nat :=
  let n := c.toNat
  if n < 0x80 then [n]
  else if n < 0x800 then [0xC0 + n / 0x40, 0x80 + n % 0x40]
  else if n < 0x10000 then [0xE0 + n / 0x1000, 0x80 + (n / 0x40) % 0x40, 0x80 + n % 0x40]
  else [0xF0 + n / 0x40000, 0x80 + (n / 0x1000) % 0x40, 0x80 + (n / 0x40) % 0x40, 0x80 + n % 0x40]

/-- Models urllib.parse.quote_plus over the UTF-8 bytes of the string. -/
def quotePlusL (l : List Char) : List Char :=
  (l.map (fun c => ((utf8Bytes c).map quotePlusByte).flatten)).flatten

/-- Models urllib.parse.urlencode over string pairs (the doseq flag has no
effect on plain string values). -/
def urlencodeL (pairs : List (List Char × List Char)) : List Char :=
  (List.intersperse ['&'] (pairs.map (fun kv => quotePlusL kv.1 ++ '=' :: quotePlusL kv.2))).flatten

/-- Step of urlunparse: append the params to the path when present. -/
def addParams (path params : List Char) : List Char :=
  if params.isEmpty then path else path ++ ';' :: params

/-- Step of urlunsplit: put the network location in front when present (or
when the url itself starts with a double slash). -/
def addNetloc (netloc url0 : List Char) : List Char :=
  if !netloc.isEmpty || url0.take 2 = ['/', '/'] then
    '/' :: '/' :: (netloc ++ (if !url0.isEmpty && url0.take 1 ≠ ['/'] then '/' :: url0 else url0))
  else url0

/-- Step of urlunsplit: put the scheme in front when present. -/
def addScheme (scheme url : List Char) : List Char :=
  if scheme.isEmpty then url else scheme ++ ':' :: url

/-- Step of urlunsplit: append the query when present. -/
def addQuery (url query : List Char) : List Char :=
  if query.isEmpty then url else url ++ '?' :: query

/-- Step of urlunsplit: append the fragment when present. -/
def addFragment (url fragment : List Char) : List Char :=
  if fragment.isEmpty then url else url ++ '#' :: fragment

/-- Models urllib.parse.urlunparse composed with urlunsplit. -/
def urlunparseL (p : UrlParts) : List Char :=
  addFragment
    (addQuery (addScheme p.scheme (addNetloc p.netloc (addParams p.path p.params))) p.query)
    p.fragment

/-- The query pairs remove_tracking_params keeps: names that do not start
with utm_ (case-insensitively) and are neither fbclid nor gclid. -/
def keptQuery (p : UrlParts) : List (List Char × List Char) :=
  (parse_qsl p.query).filter (fun kv =>
    !((kv.1.map Char.toLower).take 4 = "utm_".data) &&
      !(kv.1.map Char.toLower = "fbclid".data) && !(kv.1.map Char.toLower = "gclid".data))

/-- Models utils.remove_tracking_params: parse the URL, drop utm-prefixed
and click-identifier query parameters, re-encode the remaining query, and
rebuild the URL with an empty fragment. -/
def remove_tracking_params (url : String) : String :=
  ⟨urlunparseL
    { urlparseL url.data with
      query := urlencodeL (keptQuery (urlparseL url.data)), fragment := [] }⟩

example : remove_tracking_params "https://ex.com/a?utm_source=x&id=3#frag" = "https://ex.com/a?id=3" := by decide
example : remove_tracking_params "https://x.com/alice/status/123" = "https://x.com/alice/status/123" := by decide

/-! ## URL extraction (utils.URL_RE and extract_and_normalize_urls) -/

/-- Stop set of the URL pattern's character class in utils.URL_RE:
whitespace, closing parenthesis, closing square bracket, closing angle
bracket, single quote, double quote. -/
def urlStop (c : Char) : Bool :=
  pyWs c || c = ')' || c = ']' || c = '>' || c = '\'' || c = '"'

/-- Attempts the URL pattern at the head of the list: a literal scheme then
one or more characters outside the stop set. Returns the match and the
remainder. -/
def urlMatchAt (cs : List Char) : Option (List Char × List Char) :=
  let run := fun (scheme : List Char) (rest : List Char) =>
    let m := rest.takeWhile (fun c => !(urlStop c))
    if m.isEmpty then none
    else some (scheme ++ m, rest.dropWhile (fun c => !(urlStop c)))
  match matchPrefixLit "https://".data cs with
  | some rest => run "https://".data rest
  | none =>
    match matchPrefixLit "http://".data cs with
    | some rest => run "http://".data rest
    | none => none

/-- Worker for re.findall with utils.URL_RE: leftmost non-overlapping
matches, fuel-bounded by the list length (each step consumes at least one
character). -/
def urlFindAllAux : Nat → List Char → List (List Char)
  | 0, _ => []
  | _ + 1, [] => []
  | fuel + 1, c :: cs =>
    match urlMatchAt (c :: cs) with
    | some m => m.1 :: urlFindAllAux fuel m.2
    | none => urlFindAllAux fuel cs

/-- Models re.findall with utils.URL_RE. -/
def urlFindAll (text : List Char) : List (List Char) :=
  urlFindAllAux text.length text

/-- Models utils.extract_and_normalize_urls. The redirect-following
expansion of shortener links (utils.try_expand_url, a network call that
falls back to the input on failure) is passed in as expand. -/
def extract_and_normalize_urls (expand : String → String) (text : String) : List String :=
  (urlFindAll text.data).foldl
    (fun ordered raw =>
      let n0 := remove_tracking_params ⟨raw⟩
      let normalized :=
        if containsSub "t.co/".data n0.data then remove_tracking_params (expand n0)
        else n0
      if ordered.contains normalized then ordered else ordered ++ [normalized])
    []

example :
    extract_and_normalize_urls id "see https://x.com/alice/status/123 now"
      = ["https://x.com/alice/status/123"] := by decide

/-! ## The X status-URL pattern (x_client.X_STATUS_URL_RE and
article_fetch.X_STATUS_RE, which are the same regex) -/

/-- Searches, from the largest candidate split point downwards, for the
greedy dot-plus region followed by the status segment and at least one
digit; mirrors the backtracking of the greedy quantifier. Returns the
captured digit run. -/
def findStatusFrom (tail : List Char) : Nat → Option (List Char)
  | 0 => none
  | j + 1 =>
    match matchPrefixLit "/status/".data (tail.drop (j + 1)) with
    | some r =>
      let ds := r.takeWhile Char.isDigit
      if ds.isEmpty then findStatusFrom tail j else some ds
    | none => findStatusFrom tail j

/-- Attempts the full status pattern at the head of the list: scheme, the
x.com or twitter.com host, a non-empty dot-plus region (no newlines), the
literal status segment, then captured digits. -/
def statusMatchAt (cs : List Char) : Option (List Char) :=
  let afterScheme :=
    match matchPrefixLit "https://".data cs with
    | some rest => some rest
    | none => matchPrefixLit "http://".data cs
  match afterScheme with
  | none => none
  | some rest =>
    let afterHost :=
      match matchPrefixLit "x.com/".data rest with
      | some r => some r
      | none => matchPrefixLit "twitter.com/".data rest
    match afterHost with
    | none => none
    | some tail =>
      findStatusFrom tail (tail.takeWhile (fun c => !(c = '\n'))).length

/-- Models re.search with the status pattern: the leftmost start position at
which the pattern matches, with the greedy middle resolved as in
findStatusFrom. ASCII digits model the digit class. Returns the captured
tweet id. -/
def statusIdSearch : List Char → Option (List Char)
  | [] => none
  | c :: cs =>
    match statusMatchAt (c :: cs) with
    | some ds => some ds
    | none => statusIdSearch cs

/-- Models XClient.extract_tweet_id_from_url. -/
def extract_tweet_id_from_url (url : String) : Option String :=
  (statusIdSearch url.data).map (fun ds => ⟨ds⟩)

example : extract_tweet_id_from_url "https://x.com/alice/status/123" = some "123" := by decide
example : extract_tweet_id_from_url "https://x.com/i/web/status/99" = some "99" := by decide
example : extract_tweet_id_from_url "https://example.com/a" = none := by decide

/-! ## Liked-tweet rows (x_client.XClient.get_liked_tweets) -/

/-- models.LikedTweet (created_at is read but never used by the pipeline and
is omitted). -/
structure LikedTweet where
  tweet_id : String
  text : String
  urls : List String
deriving DecidableEq

/-- One entry of the entities.urls list of a row. -/
structure XEntityUrl where
  expanded_url : String
  url : String
deriving DecidableEq

/-- One row of the liked-tweets API payload, with the fields the source
reads; a missing or null field is the empty string, which is falsy in every
or-chain that consumes these fields, exactly as in the source. -/
structure XRow where
  id : String
  text : String
  note_text : String
  article_plain_text : String
  article_text : String
  article_id : String
  article_article_id : String
  article_url : String
  entities : List XEntityUrl
deriving DecidableEq

/-- One step of first-occurrence deduplication. -/
def dedupStep (acc : List String) (u : String) : List String :=
  if acc.contains u then acc else acc ++ [u]

/-- First-occurrence deduplication, as dict.fromkeys produces. -/
def dedupFirst (l : List String) : List String :=
  l.foldl dedupStep []

/-- Models the per-row body of XClient.get_liked_tweets: text selection
(article text, then note text, then plain text), URL extraction and
normalisation from the text, the article-id and article-url additions, the
entities fallback when no URL was found, and first-occurrence
deduplication. -/
def rowToLikedTweet (expand : String → String) (row : XRow) : LikedTweet :=
  let article_text := pyStripS (if pyTruthy row.article_plain_text then row.article_plain_text else row.article_text)
  let text :=
    if pyTruthy article_text then article_text
    else if pyTruthy row.note_text then row.note_text
    else row.text
  let urls := extract_and_normalize_urls expand text
  let article_id := pyStripS (if pyTruthy row.article_id then row.article_id else row.article_article_id)
  let article_url := pyStripS row.article_url
  let urls := urls ++ (if pyTruthy article_id then ["https://x.com/i/article/" ++ article_id] else [])
  let urls := urls ++ (if pyTruthy article_url then extract_and_normalize_urls expand article_url else [])
  let urls :=
    if urls.isEmpty then
      row.entities.foldl
        (fun acc ent =>
          let expanded := if pyTruthy ent.expanded_url then ent.expanded_url else ent.url
          if pyTruthy expanded then acc ++ extract_and_normalize_urls expand expanded else acc)
        []
    else urls
  { tweet_id := row.id, text := text, urls := dedupFirst urls }

/-- Models XClient.get_liked_tweets applied to the decoded rows of a
successful response: per-row conversion then truncation to the requested
count (clamped to at least one). -/
def get_liked_tweets (expand : String → String) (rows : List XRow) (count : Nat) : List LikedTweet :=
  (rows.map (rowToLikedTweet expand)).take (max count 1)

/-! ## Source resolution (jobs.JobManager.run_pipeline, work-item loop) -/

/-- One unit of work of the pipeline, as the dict literals of run_pipeline
build it; itemType is the type key, url or tweet. -/
structure WorkItem where
  itemType : String
  url : String
  tweet_text : String
  tweet_url : String
  tweet_id : String
deriving DecidableEq

/-- Accumulator of the source-resolution loop. -/
structure ResolveAcc where
  work_items : List WorkItem
  unique_urls : List String
  seen_urls : List String
  tweet_only_candidates : Nat
deriving DecidableEq

/-- One step of the inner URL loop of the resolver: emit one URL work item
per not-yet-seen URL. -/
def addUrlItem (tweet_text tweet_url tweet_id : String) (a : ResolveAcc) (u : String) : ResolveAcc :=
  if a.seen_urls.contains u then a
  else
    { a with
      seen_urls := a.seen_urls ++ [u]
      unique_urls := a.unique_urls ++ [u]
      work_items := a.work_items ++ [⟨"url", u, tweet_text, tweet_url, tweet_id⟩] }

/-- One liked tweet's contribution to the work-item accumulator: one URL
item per not-yet-seen embedded URL, else one tweet item when the stripped
text is non-empty. -/
def resolveStep (acc : ResolveAcc) (t : LikedTweet) : ResolveAcc :=
  let tweet_text := pyStripS t.text
  let tweet_url := if pyTruthy t.tweet_id then "https://x.com/i/web/status/" ++ t.tweet_id else ""
  if !t.urls.isEmpty then
    t.urls.foldl (addUrlItem tweet_text tweet_url t.tweet_id) acc
  else if pyTruthy tweet_text then
    { acc with
      tweet_only_candidates := acc.tweet_only_candidates + 1
      work_items := acc.work_items ++
        [⟨"tweet", (if pyTruthy tweet_url then tweet_url else "x://tweet/" ++ t.tweet_id),
          tweet_text, tweet_url, t.tweet_id⟩] }
  else acc

/-- Models the source-resolution loop of run_pipeline over a batch of liked
tweets. -/
def resolveSources (liked : List LikedTweet) : ResolveAcc :=
  liked.foldl resolveStep ⟨[], [], [], 0⟩

/-! ## Article extraction (article_fetch.py) -/

/-- models.ArticleResult. -/
structure ArticleResult where
  url : String
  final_url : String
  title : String
  content : String
  method : String
  ok : Bool := true
  error : Option String := none
deriving DecidableEq

/-- Matches one quote character (double or single), as the quote classes of
the meta patterns do. -/
def matchQuote : List Char → Option (List Char)
  | '"' :: rest => some rest
  | '\'' :: rest => some rest
  | _ => none

/-- Lazy capture of the title pattern: shortest run of any characters (the
source compiles with the dot-matches-all flag) up to the closing title
tag. -/
def titleCaptureFrom : List Char → Option (List Char)
  | [] => none
  | c :: rest =>
    match matchPrefixCI "</title>".data (c :: rest) with
    | some _ => some []
    | none => (titleCaptureFrom rest).map (fun cap => c :: cap)

/-- Models re.search with the title pattern: leftmost start, lazy capture. -/
def titleSearch : List Char → Option (List Char)
  | [] => none
  | c :: cs =>
    match (matchPrefixCI "<title>".data (c :: cs)).bind titleCaptureFrom with
    | some cap => some cap
    | none => titleSearch cs

/-- Lazy capture of the meta content value: shortest run of any characters
up to the next quote character. -/
def captureToQuote : List Char → Option (List Char)
  | [] => none
  | c :: rest =>
    if c = '"' || c = '\'' then some []
    else (captureToQuote rest).map (fun cap => c :: cap)

/-- One attribute piece of the meta patterns: the attribute literal, a
quote, the attribute value, a quote. -/
def matchAttr (attrKey attrVal r : List Char) : Option (List Char) :=
  (matchPrefixCI attrKey r).bind fun r1 =>
    (matchQuote r1).bind fun r2 =>
      (matchPrefixCI attrVal r2).bind fun r3 => matchQuote r3

/-- Backtracking over the greedy non-gt gap of the meta patterns: the gap
length is tried from the longest candidate downwards, as the greedy
quantifier does. -/
def metaGapFrom (rest : List Char) (k : List Char → Option (List Char)) : Nat → Option (List Char)
  | 0 => none
  | j + 1 =>
    match k (rest.drop (j + 1)) with
    | some v => some v
    | none => metaGapFrom rest k j

/-- Attempts one meta-description pattern at the head of the list and
returns the captured content value. -/
def metaMatchAt (attrKey attrVal cs : List Char) : Option (List Char) :=
  (matchPrefixCI "<meta".data cs).bind fun rest =>
    metaGapFrom rest
      (fun r1 =>
        (matchAttr attrKey attrVal r1).bind fun r2 =>
          metaGapFrom r2
            (fun r3 =>
              (matchPrefixCI "content=".data r3).bind fun r4 =>
                (matchQuote r4).bind captureToQuote)
            (r2.takeWhile (fun c => !(c = '>'))).length)
      (rest.takeWhile (fun c => !(c = '>'))).length

/-- Models re.search with a meta-description pattern: leftmost start with
full backtracking at each start. -/
def metaSearch (attrKey attrVal : List Char) : List Char → Option (List Char)
  | [] => none
  | c :: cs =>
    match metaMatchAt attrKey attrVal (c :: cs) with
    | some cap => some cap
    | none => metaSearch attrKey attrVal cs

/-- Models article_fetch._extract_title_description: the first title-tag
capture (or the resolved URL), then the first description meta tag
(standard name, then Open Graph property), else the fixed placeholder. -/
def extract_title_description (html final_url : String) : ArticleResult :=
  let title := compact_text
    (match titleSearch html.data with
     | some cap => ⟨cap⟩
     | none => final_url) 200
  let desc :=
    match metaSearch "name=".data "description".data html.data with
    | some cap => some cap
    | none => metaSearch "property=".data "og:description".data html.data
  let description := compact_text
    (match desc with
     | some cap => (⟨cap⟩ : String)
     | none => "本文抽出に失敗したため概要のみ。") 800
  { url := final_url, final_url := final_url, title := title, content := description,
    method := "metadata_fallback", ok := true }

/-- The fixed phrase list article_fetch.JS_REQUIRED_PATTERNS, verbatim; the
sixth entry contains upper-case letters yet is compared against a
lower-cased page, exactly as in the source. -/
def JS_REQUIRED_PATTERNS : List String :=
  ["enable javascript", "javascript is required", "javascriptを有効",
   "javascript が無効", "please enable javascript", "JavaScriptを使用できません"]

/-- Models article_fetch._looks_like_js_wall. -/
def looks_like_js_wall (html : String) : Bool :=
  JS_REQUIRED_PATTERNS.any (fun p => containsSub p.data (html.data.map Char.toLower))

/-- The decoded payload of a successful tweepy get_tweet call, with the two
text fields the source reads (an empty string models a missing field, which
is falsy wherever read). -/
structure TweepyPayload where
  note_text : String
  text : String
deriving DecidableEq

/-- Outcome of the authenticated tweepy path: module unavailable, token not
set, a raised exception, a response without data, or a payload. -/
inductive TweepyOutcome where
  | unavailable
  | noToken
  | err (msg : String)
  | noData
  | ok (p : TweepyPayload)
deriving DecidableEq

/-- Outcome of the public syndication endpoint: a raised exception (which
the source catches into returning none) or the decoded text and author
screen name. -/
inductive SyndOutcome where
  | err (msg : String)
  | ok (text : String) (screen_name : String)
deriving DecidableEq

/-- Collaborator outcomes one _fetch_x_status_text call can observe. -/
structure XFetchEnv where
  tweepy : TweepyOutcome
  synd : SyndOutcome
deriving DecidableEq

/-- The full text the tweepy path selects: the note text when non-empty,
else the plain text, each stripped and compacted as the source does. -/
def tweepyFullText (p : TweepyPayload) : String :=
  if pyTruthy (compact_text (pyStripS p.note_text) 12000)
  then compact_text (pyStripS p.note_text) 12000
  else compact_text (pyStripS p.text) 12000

/-- The authenticated tweepy path of _fetch_x_status_text: any non-empty
selected text succeeds, with the constant X-post title. -/
def tweepyFetchResult (t : TweepyOutcome) (url : String) : Option ArticleResult :=
  match t with
  | .ok p =>
    if pyTruthy (tweepyFullText p) then
      some { url := url, final_url := url, title := "X投稿", content := tweepyFullText p,
             method := "x_tweepy_v2_note_tweet", ok := true }
    else none
  | _ => none

/-- The title the syndication path derives from the author screen name (the
format-and-strip of the source, with the constant label when the screen
name is empty). -/
def syndTitle (screen_name : String) : String :=
  if pyStripS ("X投稿 @" ++ screen_name) = "X投稿 @" then "X投稿"
  else pyStripS ("X投稿 @" ++ screen_name)

/-- The public syndication path of _fetch_x_status_text: a twenty-character
minimum on the compacted text, title from the author screen name. -/
def syndFetchResult (s : SyndOutcome) (url : String) : Option ArticleResult :=
  match s with
  | .err _ => none
  | .ok rawText screen_name =>
    if (compact_text (pyStripS rawText) 10000).length < 20 then none
    else
      some { url := url, final_url := url, title := syndTitle screen_name,
             content := compact_text (pyStripS rawText) 10000,
             method := "x_syndication", ok := true }

/-- Models article_fetch._fetch_x_status_text: the status-URL gate, the
authenticated tweepy path, then the syndication fallback. -/
def fetch_x_status_text (env : XFetchEnv) (url : String) : Option ArticleResult :=
  match statusIdSearch url.data with
  | none => none
  | some _ =>
    match tweepyFetchResult env.tweepy url with
    | some r => some r
    | none => syndFetchResult env.synd url

/-- HTTP response of the primary fetch: the post-redirect URL as the
requests library reports it (empty models a falsy value, in which case the
source falls back to the input URL) and the body text. -/
structure HttpResp where
  resp_url : String
  html : String
deriving DecidableEq

/-- Readability outcome fields: the document short title (empty models a
falsy value) and the summary HTML. -/
structure RdResult where
  short_title : String
  summary_html : String
deriving DecidableEq

/-- Collaborator outcomes one fetch_article call can observe. The jina
reader is a total function of the URL because _fetch_via_jina_reader
catches every error (and the disabled flag) into an empty string; the two
reader calls of the source pass the same URL and therefore observe the same
value. -/
structure FetchEnv where
  x : XFetchEnv
  http : Except String HttpResp
  readability : Except String RdResult
  trafilatura : Except String (Option String)
  jina : String → String

/-- Models article_fetch.fetch_article: the strategy cascade in source
order with the quality gates exactly as coded. -/
def fetch_article (env : FetchEnv) (url : String) : ArticleResult :=
  match fetch_x_status_text env.x url with
  | some r => r
  | none =>
    match env.http with
    | .error e =>
      { url := url, final_url := url, title := url, content := "",
        method := "request_failed", ok := false, error := some ("request_failed: " ++ e) }
    | .ok resp =>
      let final_url := if pyTruthy resp.resp_url then resp.resp_url else url
      let html := resp.html
      let rd : Option ArticleResult :=
        match env.readability with
        | .error _ => none
        | .ok doc =>
          let title := compact_text (if pyTruthy doc.short_title then doc.short_title else final_url) 200
          let body := compact_text (strip_html_tags doc.summary_html) 10000
          if 200 < body.length then
            some { url := url, final_url := final_url, title := title, content := body,
                   method := "readability", ok := true }
          else none
      match rd with
      | some r => r
      | none =>
        let tf : Option ArticleResult :=
          match env.trafilatura with
          | .error _ => none
          | .ok none => none
          | .ok (some extracted) =>
            if pyTruthy extracted && 200 < (pyStripS extracted).length then
              some { url := url, final_url := final_url, title := final_url,
                     content := compact_text extracted 10000, method := "trafilatura", ok := true }
            else none
        match tf with
        | some r => r
        | none =>
          let jsText := env.jina final_url
          if looks_like_js_wall html && 200 < (pyStripS jsText).length then
            { url := url, final_url := final_url, title := final_url, content := jsText,
              method := "jina_reader_js_fallback", ok := true }
          else
            let text := env.jina final_url
            if 300 < (pyStripS text).length then
              { url := url, final_url := final_url, title := final_url, content := text,
                method := "jina_reader_fallback", ok := true }
            else extract_title_description html final_url

/-! ## Pipeline orchestrator (jobs.py) -/

/-- Exceptions the pipeline model distinguishes: the X API error with its
status-code attribute, and every other exception by its message. -/
inductive PyExn where
  | xapi (msg : String) (code : Option Nat)
  | runtime (msg : String)
deriving DecidableEq

/-- The message str produces for a modelled exception. -/
def PyExn.msg : PyExn → String
  | .xapi m _ => m
  | .runtime m => m

/-- One material dict of run_pipeline, with its six keys. -/
structure Material where
  kind : String
  title : String
  url : String
  tweet_text : String
  content : String
  method : String
deriving DecidableEq

/-- One skipped-item record. -/
structure Skipped where
  url : String
  reason : String
deriving DecidableEq

/-- One event-log entry; the structured detail payload carries only
diagnostic counts and reasons and is omitted from the model. -/
structure Event where
  stage : String
  level : String
  message : String
deriving DecidableEq

/-- The success payload stored in result by a done update. The episode
record written through db.create_episode and read back by db.get_episode is
modelled by the script it stores. -/
structure ResultPayload where
  episodeScript : String
  materials : List Material
  skipped : List Skipped
  liked_count : Nat
  url_count : Nat
  note : Option String
deriving DecidableEq

/-- Projection of models.JobState at the end of one run_pipeline execution,
extended with the ordered list of progress values written during the run. -/
structure RunResult where
  status : String
  progress : Nat
  message : String
  result : Option ResultPayload
  error : Option String
  failure_stage : Option String
  events : List Event
  progressTrace : List Nat
deriving DecidableEq

/-- Collaborator outcomes one run_pipeline execution can observe. liked is
the outcome of XClient.get_liked_tweets; fallbackUrls is the parsed
FALLBACK_SOURCE_URLS list as _fallback_urls_from_env returns it (split,
stripped, deduplicated); fetchArticle is article_fetch.fetch_article as a
function of the URL; compose is summarize.compose_podcast_script; tts is
tts.synthesize_speech. The sqlite layer (create_episode, finalize_episode,
get_episode) is modelled as succeeding and returning the stored script. -/
structure PipelineEnv where
  liked : Except PyExn (List LikedTweet)
  fallbackUrls : List String
  fetchArticle : String → ArticleResult
  compose : List Material → Except String String
  tts : String → Except String Unit

/-- Models str.join with the newline separator. -/
def joinNl : List String → String
  | [] => ""
  | [s] => s
  | s :: rest => s ++ "\n" ++ joinNl rest

/-- The per-material block of the fallback script: title line, excerpt of
at most twelve hundred characters (the tweet text when the content is
empty, a fixed sentence when both are), attribution line, blank line. -/
def fallbackMaterialLines (i : Nat) (m : Material) : List String :=
  let c0 := pyStripS m.content
  let content := if pyTruthy c0 then c0 else pyStripS m.tweet_text
  ["【素材" ++ toString i ++ "】" ++ m.title,
   (if pyTruthy content then (⟨content.data.take 1200⟩ : String) else "本文を十分に取得できませんでした。"),
   "出典: " ++ m.url,
   ""]

/-- Models jobs._fallback_script: two fixed header lines and a blank line,
one block per material (numbered from one), a fixed footer line, all joined
with newlines. The title, content, tweet-text, and url keys are always
present on the material dicts the pipeline builds, so the dict-get defaults
of the source are never taken. -/
def fallback_script (materials : List Material) : String :=
  joinNl
    (["おはようございます。通勤向けニュースダイジェストです。",
      "本日は、いいねした投稿と記事から情報をじっくりお届けします。",
      ""]
      ++ (materials.enum.map (fun p => fallbackMaterialLines (p.1 + 1) p.2)).flatten
      ++ ["以上、通勤向けニュースダイジェストでした。"])

/-- Models the or-chains that replace a missing or empty error string by a
default reason. -/
def errorOr (e : Option String) (dflt : String) : String :=
  match e with
  | some s => if pyTruthy s then s else dflt
  | none => dflt

/-- Per-item progress value of the extraction loop. The source computes
this with floating-point division; the natural-number division used here
agrees with it on every concrete input appearing in the theorems below, and
both are monotone in the item index (at a few ratios, such as one third,
the floating-point value rounds one lower — no theorem below depends on a
value where the two differ). -/
def itemProgress (idx total : Nat) : Nat :=
  15 + 45 * idx / total

/-- Accumulator of the per-item extraction loop, including the stage cursor
(url items move it to the fetch-article stage) and the progress writes. -/
structure LoopAcc where
  materials : List Material
  skipped : List Skipped
  trace : List Nat
  events : List Event
  stage : String
deriving DecidableEq

/-- One iteration of the per-item extraction loop of run_pipeline. -/
def processItem (env : PipelineEnv) (total idx : Nat) (item : WorkItem) (acc : LoopAcc) : LoopAcc :=
  if item.itemType = "url" then
    let acc := { acc with stage := "fetch_article", trace := acc.trace ++ [itemProgress idx total] }
    let article := env.fetchArticle item.url
    if article.ok && pyTruthy (pyStripS article.content) then
      { acc with materials := acc.materials ++
          [⟨"article", article.title, article.final_url, item.tweet_text, article.content, article.method⟩] }
    else if pyTruthy item.tweet_text then
      { acc with
        materials := acc.materials ++
          [⟨"tweet_comment_fallback", "X投稿コメント", item.url, item.tweet_text, item.tweet_text,
            "tweet_fallback"⟩],
        events := acc.events ++ [⟨"fetch_article", "warning", "article_failed_tweet_fallback_used"⟩] }
    else
      { acc with skipped := acc.skipped ++ [⟨item.url, errorOr article.error "content_too_short"⟩] }
  else if item.itemType = "tweet" then
    let tweet_text := pyStripS item.tweet_text
    let tweet_url := if pyTruthy item.tweet_url then item.tweet_url else item.url
    let tweet_id := item.tweet_id
    if !pyTruthy tweet_text then
      { acc with skipped := acc.skipped ++
          [⟨(if pyTruthy tweet_url then tweet_url else "x://tweet/" ++ tweet_id), "tweet_text_empty"⟩] }
    else
      { acc with materials := acc.materials ++
          [⟨"tweet", (if pyTruthy tweet_id then "X投稿 " ++ tweet_id else "X投稿"),
            (if pyTruthy tweet_url then tweet_url else "x://tweet/" ++ tweet_id),
            tweet_text, tweet_text, "tweet_text"⟩] }
  else acc

/-- The per-item extraction loop, enumerating from one. -/
def processLoop (env : PipelineEnv) (total : Nat) : List WorkItem → Nat → LoopAcc → LoopAcc
  | [], _, acc => acc
  | item :: rest, idx, acc => processLoop env total rest (idx + 1) (processItem env total idx item acc)

/-- The per-URL loop of the 402 fallback handler: one article material per
URL with usable content, one skipped record otherwise (no progress writes
and no events, as in the source). -/
def fallbackStep (env : PipelineEnv) (acc : List Material × List Skipped) (u : String) :
    List Material × List Skipped :=
  let article := env.fetchArticle u
  if article.ok && pyTruthy (pyStripS article.content) then
    (acc.1 ++ [⟨"article", article.title, article.final_url, "", article.content, article.method⟩], acc.2)
  else
    (acc.1, acc.2 ++ [⟨u, errorOr article.error "content_too_short"⟩])

/-- The materials and skipped records the 402 fallback handler builds from
the static URL list. -/
def fallbackMaterials (env : PipelineEnv) : List Material × List Skipped :=
  env.fallbackUrls.foldl (fallbackStep env) ([], [])

/-- Models the except handler of run_pipeline: the job-level 402 strategy
fallback when a static list is configured and yields at least one material,
otherwise the error update. The fallback path calls compose and synthesis
unprotected, so an exception there propagates out of the coroutine and
leaves the job in the running state it was last updated to. -/
def handleExn (env : PipelineEnv) (e : PyExn) (stage : Option String)
    (prog : List Nat) (events : List Event) : RunResult :=
  let errorResult : RunResult :=
    { status := "error", progress := 100, message := "Failed", result := none,
      error := some e.msg, failure_stage := stage,
      events := events ++ [⟨stage.getD "unknown", "error", "job_failed"⟩],
      progressTrace := prog ++ [100] }
  match e with
  | .xapi _ (some 402) =>
    if !env.fallbackUrls.isEmpty then
      let prog2 := prog ++ [20]
      let fm := fallbackMaterials env
      if !fm.1.isEmpty then
        match env.compose fm.1 with
        | .error _ =>
          { status := "running", progress := 20,
            message := "X liked_tweets unavailable. Using FALLBACK_SOURCE_URLS",
            result := none, error := none, failure_stage := stage,
            events := events, progressTrace := prog2 }
        | .ok script =>
          match env.tts script with
          | .error _ =>
            { status := "running", progress := 20,
              message := "X liked_tweets unavailable. Using FALLBACK_SOURCE_URLS",
              result := none, error := none, failure_stage := stage,
              events := events, progressTrace := prog2 }
          | .ok _ =>
            { status := "done", progress := 100, message := "Completed with fallback URLs",
              result := some { episodeScript := script, materials := fm.1, skipped := fm.2,
                               liked_count := 0, url_count := env.fallbackUrls.length,
                               note := some "X liked_tweets returned 402. Used FALLBACK_SOURCE_URLS." },
              error := none, failure_stage := none, events := events,
              progressTrace := prog2 ++ [100] }
      else { errorResult with progressTrace := prog2 ++ [100] }
    else errorResult
  | _ => errorResult

/-- The remainder of the try block once the work-item list is fixed: the
per-item loop, the empty-materials check, compose with its internal
fallback, persist, synthesis, and the done update. -/
def runMain (env : PipelineEnv) (liked : List LikedTweet) (events0 : List Event)
    (prog0 : List Nat) (work_items : List WorkItem) (unique_urls : List String)
    (stage0 : String) : RunResult :=
  let acc := processLoop env work_items.length work_items 1 ⟨[], [], [], [], stage0⟩
  let events := events0 ++ acc.events
  let prog := prog0 ++ acc.trace
  if acc.materials.isEmpty then
    handleExn env (.runtime "No rich source materials could be extracted") (some acc.stage) prog events
  else
    let composeOut := env.compose acc.materials
    let script :=
      match composeOut with
      | .ok s => s
      | .error _ => fallback_script acc.materials
    let events2 := events ++
      (match composeOut with
       | .ok _ => []
       | .error _ => [⟨"compose_script", "warning", "compose_failed_fallback_used"⟩])
    let prog2 := prog ++ [70, 80, 90]
    match env.tts script with
    | .error m => handleExn env (.runtime m) (some "tts") prog2 events2
    | .ok _ =>
      { status := "done", progress := 100, message := "Completed",
        result := some { episodeScript := script, materials := acc.materials,
                         skipped := acc.skipped, liked_count := liked.length,
                         url_count := unique_urls.length, note := none },
        error := none, failure_stage := none,
        events := events2 ++ [⟨"completed", "info", "job_done"⟩],
        progressTrace := prog2 ++ [100] }

/-- Models jobs.JobManager.run_pipeline as a pure function of the
collaborator environment, returning the final job state together with the
ordered progress writes. -/
def run_pipeline (env : PipelineEnv) : RunResult :=
  let ev0 : List Event := [⟨"fetch_likes", "info", "start"⟩]
  let prog0 : List Nat := [5]
  match env.liked with
  | .error e => handleExn env e (some "fetch_likes") prog0 ev0
  | .ok liked =>
    let ev2 := ev0 ++ [⟨"fetch_likes", "info", "done"⟩, ⟨"extract_sources", "info", "done"⟩]
    let prog1 := prog0 ++ [15]
    let racc := resolveSources liked
    if racc.work_items.isEmpty then
      if !env.fallbackUrls.isEmpty then
        runMain env liked ev2 (prog1 ++ [20])
          (env.fallbackUrls.map (fun u => (⟨"url", u, "", "", ""⟩ : WorkItem)))
          env.fallbackUrls "extract_sources"
      else
        handleExn env (.runtime "No processable liked tweets found") (some "extract_sources") prog1 ev2
    else
      runMain env liked ev2 prog1 racc.work_items racc.unique_urls "extract_sources"

/-! ## Structure of collapsed text (supporting compact_text analysis) -/

/-- Forbidden adjacency: two neighbouring whitespace characters. -/
def NoWsPair (a b : Char) : Prop :=
  ¬(pyWs a = true ∧ pyWs b = true)

/-- Collapsed text: every whitespace character is a plain space and no two
adjacent characters are both whitespace. -/
def Collapsed (l : List Char) : Prop :=
  (∀ c ∈ l, pyWs c = true → c = ' ') ∧ List.Chain' NoWsPair l

theorem collapseWsAux_spaces (l : List Char) :
    ∀ (b : Bool), ∀ c ∈ collapseWsAux b l, pyWs c = true → c = ' ' := by
  induction l with
  | nil => intro b c hc; simp [collapseWsAux] at hc
  | cons a rest ih =>
    intro b c hc hws
    simp only [collapseWsAux] at hc
    by_cases ha : pyWs a = true
    · rw [if_pos ha] at hc
      rcases List.mem_append.mp hc with hx | hx
      · cases b with
        | true => simp at hx
        | false => simp at hx; exact hx
      · exact ih true c hx hws
    · rw [if_neg ha] at hc
      rcases List.mem_cons.mp hc with rfl | hx
      · exact absurd hws ha
      · exact ih false c hx hws

theorem collapseWsAux_chain (l : List Char) :
    List.Chain' NoWsPair (collapseWsAux false l) ∧
      List.Chain' NoWsPair (collapseWsAux true l) ∧
        ∀ c ∈ (collapseWsAux true l).head?, pyWs c = false := by
  induction l with
  | nil => simp [collapseWsAux]
  | cons a rest ih =>
    obtain ⟨ihF, ihT, ihH⟩ := ih
    by_cases ha : pyWs a = true
    · refine ⟨?_, ?_, ?_⟩
      · simp only [collapseWsAux, if_pos ha]
        simp only [Bool.false_eq_true, if_false, List.singleton_append]
        rw [List.chain'_cons']
        refine ⟨fun y hy => ?_, ihT⟩
        intro hpair
        rw [ihH y hy] at hpair
        exact Bool.false_ne_true hpair.2
      · simp only [collapseWsAux, if_pos ha]
        simpa using ihT
      · simp only [collapseWsAux, if_pos ha]
        simpa using ihH
    · have haf : pyWs a = false := by simpa using ha
      refine ⟨?_, ?_, ?_⟩
      · simp only [collapseWsAux, if_neg ha]
        rw [List.chain'_cons']
        refine ⟨fun y _ => ?_, ihF⟩
        intro hpair
        rw [haf] at hpair
        exact Bool.false_ne_true hpair.1
      · simp only [collapseWsAux, if_neg ha]
        rw [List.chain'_cons']
        refine ⟨fun y _ => ?_, ihF⟩
        intro hpair
        rw [haf] at hpair
        exact Bool.false_ne_true hpair.1
      · simp only [collapseWsAux, if_neg ha]
        intro c hc
        simp only [List.head?_cons, Option.mem_def, Option.some.injEq] at hc
        rw [← hc]
        exact haf

theorem collapseWs_collapsed (l : List Char) : Collapsed (collapseWs l) :=
  ⟨collapseWsAux_spaces l false, (collapseWsAux_chain l).1⟩

theorem collapseWsAux_false_eq_self (l : List Char)
    (hs : ∀ c ∈ l, pyWs c = true → c = ' ') (hc : List.Chain' NoWsPair l) :
    collapseWsAux false l = l := by
  induction l with
  | nil => rfl
  | cons a rest ih =>
    have hs' : ∀ c ∈ rest, pyWs c = true → c = ' ' :=
      fun c hcm hw => hs c (List.mem_cons_of_mem a hcm) hw
    have hc' : List.Chain' NoWsPair rest := (List.chain'_cons'.mp hc).2
    by_cases ha : pyWs a = true
    · have ha' : a = ' ' := hs a (List.mem_cons_self a rest) ha
      simp only [collapseWsAux, if_pos ha, Bool.false_eq_true, if_false, List.singleton_append]
      have hrest : collapseWsAux true rest = rest := by
        cases rest with
        | nil => rfl
        | cons d r2 =>
          have hpair : NoWsPair a d := (List.chain'_cons'.mp hc).1 d rfl
          have hd : pyWs d = false := by
            by_contra hdd
            exact hpair ⟨ha, by simpa using hdd⟩
          have hfd : ¬ pyWs d = true := by simp [hd]
          have h2 : collapseWsAux false (d :: r2) = d :: r2 := ih hs' hc'
          simp only [collapseWsAux, if_neg hfd] at h2 ⊢
          exact h2
      rw [hrest, ha']
    · simp only [collapseWsAux, if_neg ha]
      rw [ih hs' hc']

/-- The head of a dropWhile result fails the predicate. -/
theorem head_dropWhile_false (p : Char → Bool) (l : List Char) :
    ∀ c ∈ (l.dropWhile p).head?, p c = false := by
  induction l with
  | nil => intro c hc; simp at hc
  | cons a rest ih =>
    intro c hc
    by_cases ha : p a = true
    · rw [List.dropWhile_cons_of_pos ha] at hc
      exact ih c hc
    · rw [List.dropWhile_cons_of_neg ha] at hc
      simp only [List.head?_cons, Option.mem_def, Option.some.injEq] at hc
      rw [← hc]
      simpa using ha

/-- dropWhile is the identity when the head already fails the predicate. -/
theorem dropWhile_eq_self_of_head (p : Char → Bool) (l : List Char)
    (h : ∀ c ∈ l.head?, p c = false) : l.dropWhile p = l := by
  cases l with
  | nil => rfl
  | cons a rest =>
    have := h a rfl
    rw [List.dropWhile_cons_of_neg (by simp [this])]

/-- The head of a pyStrip result is not whitespace. -/
theorem head_pyStrip_false (l : List Char) :
    ∀ c ∈ (pyStrip l).head?, pyWs c = false := by
  intro c hc
  unfold pyStrip at hc
  obtain ⟨t, ht⟩ := List.dropWhile_suffix (l := (l.dropWhile pyWs).reverse) pyWs
  have hrepr : l.dropWhile pyWs =
      ((l.dropWhile pyWs).reverse.dropWhile pyWs).reverse ++ t.reverse := by
    have := congrArg List.reverse ht
    simpa [List.reverse_append] using this.symm
  cases hE : ((l.dropWhile pyWs).reverse.dropWhile pyWs).reverse with
  | nil => rw [hE] at hc; simp at hc
  | cons x xs =>
    rw [hE] at hc
    simp only [List.head?_cons, Option.mem_def, Option.some.injEq] at hc
    rw [hE] at hrepr
    have hx : (l.dropWhile pyWs).head? = some x := by rw [hrepr]; rfl
    rw [← hc]
    exact head_dropWhile_false pyWs l x hx

/-- pyStrip preserves the collapsed-text structure. -/
theorem collapsed_pyStrip (l : List Char) (h : Collapsed l) : Collapsed (pyStrip l) := by
  obtain ⟨hs, hc⟩ := h
  have hd : Collapsed (l.dropWhile pyWs) :=
    ⟨fun c hcm hw => hs c ((List.dropWhile_suffix pyWs).subset hcm) hw,
     List.Chain'.suffix hc (List.dropWhile_suffix pyWs)⟩
  have hflip : ∀ l2 : List Char, List.Chain' NoWsPair l2 → List.Chain' NoWsPair l2.reverse := by
    intro l2 h2
    rw [List.chain'_reverse]
    exact List.Chain'.imp (fun a b hab => fun hpair => hab ⟨hpair.2, hpair.1⟩) h2
  have hdr : Collapsed (l.dropWhile pyWs).reverse :=
    ⟨fun c hcm hw => hd.1 c (List.mem_reverse.mp hcm) hw, hflip _ hd.2⟩
  have hdd : Collapsed ((l.dropWhile pyWs).reverse.dropWhile pyWs) :=
    ⟨fun c hcm hw => hdr.1 c ((List.dropWhile_suffix pyWs).subset hcm) hw,
     List.Chain'.suffix hdr.2 (List.dropWhile_suffix pyWs)⟩
  exact ⟨fun c hcm hw => hdd.1 c (List.mem_reverse.mp hcm) hw, hflip _ hdd.2⟩

/-- take preserves the collapsed-text structure. -/
theorem collapsed_take (l : List Char) (n : Nat) (h : Collapsed l) : Collapsed (l.take n) :=
  ⟨fun c hcm hw => h.1 c (List.take_subset n l hcm) hw, List.Chain'.take h.2 n⟩

/-- Whether the final character of a string is whitespace. -/
def endsInWs (s : String) : Bool :=
  match s.data.getLast? with
  | some c => pyWs c
  | none => false

/-! ## Claims C7 and C8 -/

/-- C7: the specification says stripMarkup removes entire script and style
blocks including their inner content so that no script source text appears
in the output. The source writes the block pattern in a raw string with
doubled backslashes, so its character class matches only a backslash, s, or
S; on the input below the block pattern therefore does not match, the
tag pass removes only the two tags, and the script body survives verbatim
in the output — the code contradicts the intended (and specified)
behaviour. -/
theorem c7_script_body_survives :
    strip_html_tags "<script>var x=1;</script>" = "var x=1;" := by decide

/-- C8 counterexample: compact_text is not idempotent for every string and
bound — truncating at two characters leaves a trailing space that the
second application strips. -/
theorem c8_counterexample :
    compact_text (compact_text "a b" 2) 2 ≠ compact_text "a b" 2 := by decide

/-- C8 (amended): compact_text is idempotent at every input and bound whose
compacted value does not end in whitespace; truncation mid-run is the only
source of a trailing space, and a second application removes exactly that
space. -/
theorem c8_compact_text_idempotent (s : String) (n : Nat)
    (h : endsInWs (compact_text s n) = false) :
    compact_text (compact_text s n) n = compact_text s n := by
  have hColV : Collapsed ((pyStrip (collapseWs s.data)).take n) :=
    collapsed_take _ n (collapsed_pyStrip _ (collapseWs_collapsed s.data))
  have hcv : collapseWs ((pyStrip (collapseWs s.data)).take n)
      = (pyStrip (collapseWs s.data)).take n :=
    collapseWsAux_false_eq_self _ hColV.1 hColV.2
  have hheadv : ∀ c ∈ ((pyStrip (collapseWs s.data)).take n).head?, pyWs c = false := by
    intro c hc
    cases hw : pyStrip (collapseWs s.data) with
    | nil => rw [hw] at hc; simp at hc
    | cons x xs =>
      rw [hw] at hc
      cases n with
      | zero => simp at hc
      | succ m =>
        simp only [List.take_succ_cons, List.head?_cons, Option.mem_def, Option.some.injEq] at hc
        rw [← hc]
        have hx : (pyStrip (collapseWs s.data)).head? = some x := by rw [hw]; rfl
        exact head_pyStrip_false (collapseWs s.data) x hx
  have hlastv : ∀ c ∈ ((pyStrip (collapseWs s.data)).take n).reverse.head?, pyWs c = false := by
    intro c hc
    rw [List.head?_reverse] at hc
    have hg : ((pyStrip (collapseWs s.data)).take n).getLast? = some c := hc
    unfold endsInWs at h
    rw [show (compact_text s n).data = (pyStrip (collapseWs s.data)).take n from rfl] at h
    rw [hg] at h
    exact h
  have hstrip : pyStrip ((pyStrip (collapseWs s.data)).take n)
      = (pyStrip (collapseWs s.data)).take n := by
    have h1 : ((pyStrip (collapseWs s.data)).take n).dropWhile pyWs
        = (pyStrip (collapseWs s.data)).take n := dropWhile_eq_self_of_head pyWs _ hheadv
    have h2 : ((pyStrip (collapseWs s.data)).take n).reverse.dropWhile pyWs
        = ((pyStrip (collapseWs s.data)).take n).reverse := dropWhile_eq_self_of_head pyWs _ hlastv
    show ((((pyStrip (collapseWs s.data)).take n).dropWhile pyWs).reverse.dropWhile pyWs).reverse
        = (pyStrip (collapseWs s.data)).take n
    rw [h1, h2, List.reverse_reverse]
  have hlen : ((pyStrip (collapseWs s.data)).take n).length ≤ n := by
    rw [List.length_take]; exact Nat.min_le_left _ _
  show (⟨(pyStrip (collapseWs ((pyStrip (collapseWs s.data)).take n))).take n⟩ : String)
      = ⟨(pyStrip (collapseWs s.data)).take n⟩
  rw [hcv, hstrip, List.take_of_length_le hlen]

/-- C8 witness: the amended idempotence applied at a concrete input whose
compacted value keeps no trailing space. -/
theorem c8_compact_text_idempotent_witness :
    endsInWs (compact_text "a  b" 3) = false ∧
      compact_text (compact_text "a  b" 3) 3 = compact_text "a  b" 3 :=
  ⟨by decide, c8_compact_text_idempotent "a  b" 3 (by decide)⟩

/-! ## Claim C10: the URL normaliser always drops the fragment -/

/-- The fragment component a consumer reads back from a URL string. -/
def urlFragmentOf (s : String) : String :=
  ⟨(urlparseL s.data).fragment⟩

/-- No hash character occurs in the list. -/
def NoHash (l : List Char) : Prop :=
  ∀ c ∈ l, c ≠ '#'

theorem noHash_append {a b : List Char} (ha : NoHash a) (hb : NoHash b) : NoHash (a ++ b) := by
  intro c hc
  rcases List.mem_append.mp hc with h | h
  · exact ha c h
  · exact hb c h

theorem noHash_cons {c : Char} {l : List Char} (hc : c ≠ '#') (hl : NoHash l) :
    NoHash (c :: l) := by
  intro x hx
  rcases List.mem_cons.mp hx with rfl | hx
  · exact hc
  · exact hl x hx

/-- Lower-casing maps only the hash character to the hash character. -/
theorem toLower_eq_hash (c : Char) (h : c.toLower = '#') : c = '#' := by
  unfold Char.toLower at h
  simp only [] at h
  by_cases hc : c.toNat ≥ 65 ∧ c.toNat ≤ 90
  · rw [if_pos hc] at h
    exfalso
    have hv : (c.toNat + 32).isValidChar := by left; omega
    have hval : (Char.ofNat (c.toNat + 32)).toNat = c.toNat + 32 := by
      simp [Char.ofNat, hv]
      rfl
    rw [h] at hval
    have h35 : ('#' : Char).toNat = 35 := by decide
    omega
  · rw [if_neg hc] at h
    exact h

/-- A character built from a small code point recovers that code point. -/
theorem toNat_ofNat_small (b : Nat) (hb : b < 0xd800) : (Char.ofNat b).toNat = b := by
  have hv : b.isValidChar := Or.inl hb
  simp [Char.ofNat, hv]
  rfl

theorem splitSchemeUrl_scheme_noHash (cs : List Char) : NoHash (splitSchemeUrl cs).1 := by
  unfold splitSchemeUrl
  split
  · intro c hc; simp at hc
  · split
    · intro c hc; simp at hc
    · split
      · next hcond =>
        intro c hc
        rcases List.mem_map.mp hc with ⟨d, hd, hdc⟩
        intro hch
        rw [hch] at hdc
        have hd35 : d = '#' := toLower_eq_hash d hdc
        have hcond2 := hcond
        simp only [Bool.and_eq_true] at hcond2
        have hall := (List.all_eq_true.mp hcond2.2) d hd
        rw [hd35] at hall
        exact absurd hall (by decide)
      · intro c hc; simp at hc

theorem splitSchemeUrl_snd_subset (cs : List Char) : ∀ c ∈ (splitSchemeUrl cs).2, c ∈ cs := by
  unfold splitSchemeUrl
  split
  · exact fun c hc => hc
  · next heq =>
    split
    · exact fun c hc => hc
    · split
      · intro c hc
        refine (List.dropWhile_suffix (l := cs) (fun c => !(c = ':'))).subset ?_
        rw [heq]
        exact List.mem_cons_of_mem _ hc
      · exact fun c hc => hc

theorem splitNetloc_netloc_noHash (cs : List Char) : NoHash (splitNetloc cs).1 := by
  unfold splitNetloc
  split
  · intro c hc hch
    have := List.mem_takeWhile_imp hc
    rw [hch] at this
    simp [netlocStop] at this
  · intro c hc; simp at hc

theorem splitNetloc_snd_subset (cs : List Char) : ∀ c ∈ (splitNetloc cs).2, c ∈ cs := by
  unfold splitNetloc
  split
  · next rest =>
    intro c hc
    have h1 : c ∈ rest := (List.dropWhile_suffix (fun c => !(netlocStop c))).subset hc
    exact List.mem_cons_of_mem _ (List.mem_cons_of_mem _ h1)
  · exact fun c hc => hc

theorem splitParamsL_fst_subset (p : List Char) : ∀ c ∈ (splitParamsL p).1, c ∈ p := by
  unfold splitParamsL
  split
  · split
    · split
      · intro c hc
        rcases List.mem_append.mp hc with h | h
        · exact List.take_subset _ _ h
        · exact List.drop_subset _ _ ((List.takeWhile_sublist _).subset h)
      · exact fun c hc => hc
    · intro c hc
      exact (List.takeWhile_sublist _).subset hc
  · exact fun c hc => hc

theorem splitParamsL_snd_subset (p : List Char) : ∀ c ∈ (splitParamsL p).2, c ∈ p := by
  unfold splitParamsL
  split
  · split
    · split
      · intro c hc
        have h1 := List.drop_subset 1 _ hc
        have h2 := (List.dropWhile_suffix (fun c => !(c = ';'))).subset h1
        exact List.drop_subset _ _ h2
      · intro c hc; simp at hc
    · intro c hc
      have h1 := List.drop_subset 1 _ hc
      exact (List.dropWhile_suffix (fun c => !(c = ';'))).subset h1
  · intro c hc; simp at hc

theorem breakOnChar_hash_none (l : List Char) (h : NoHash l) : (breakOnChar '#' l).2 = none := by
  unfold breakOnChar
  have hd : l.dropWhile (fun c => !(c = '#')) = [] := by
    rw [List.dropWhile_eq_nil_iff]
    intro x hx
    simp [h x hx]
  rw [hd]

theorem quotePlusByte_noHash (b : Nat) : NoHash (quotePlusByte b) := by
  unfold quotePlusByte
  split
  · next hsafe =>
    intro c hc
    rcases List.mem_singleton.mp hc with rfl
    intro hch
    have hb : b < 0xd800 := by
      simp only [alwaysSafeByte, Bool.or_eq_true, Bool.and_eq_true, decide_eq_true_eq] at hsafe
      omega
    have := toNat_ofNat_small b hb
    rw [hch] at this
    have h35 : ('#' : Char).toNat = 35 := by decide
    rw [h35] at this
    rw [← this] at hsafe
    exact absurd hsafe (by decide)
  · split
    · intro c hc
      rcases List.mem_singleton.mp hc with rfl
      decide
    · intro c hc
      have hhex : ∀ n : Nat, hexDigitUpper n ≠ '#' := by
        intro n
        unfold hexDigitUpper
        split
        · next hn =>
          intro hch
          have := toNat_ofNat_small (48 + n) (by omega)
          rw [hch] at this
          have h35 : ('#' : Char).toNat = 35 := by decide
          omega
        · split
          · next hn =>
            intro hch
            have := toNat_ofNat_small (55 + n) (by omega)
            rw [hch] at this
            have h35 : ('#' : Char).toNat = 35 := by decide
            omega
          · decide
      rcases List.mem_cons.mp hc with rfl | hc
      · decide
      · rcases List.mem_cons.mp hc with rfl | hc
        · exact hhex _
        · rcases List.mem_singleton.mp hc with rfl
          exact hhex _

theorem quotePlusL_noHash (l : List Char) : NoHash (quotePlusL l) := by
  intro c hc
  unfold quotePlusL at hc
  rcases List.mem_flatten.mp hc with ⟨sub, hsub, hcsub⟩
  rcases List.mem_map.mp hsub with ⟨d, _, hdef⟩
  rw [← hdef] at hcsub
  rcases List.mem_flatten.mp hcsub with ⟨sub2, hsub2, hcsub2⟩
  rcases List.mem_map.mp hsub2 with ⟨b, _, hdef2⟩
  rw [← hdef2] at hcsub2
  exact quotePlusByte_noHash b c hcsub2

theorem mem_intersperse_chars {c : Char} {sep : List Char} {L : List (List Char)}
    (hc : c ∈ (List.intersperse sep L).flatten) : c ∈ sep ∨ ∃ l ∈ L, c ∈ l := by
  induction L with
  | nil => simp at hc
  | cons x rest ih =>
    cases rest with
    | nil =>
      simp only [List.intersperse_single, List.flatten_cons, List.flatten_nil,
        List.append_nil] at hc
      exact Or.inr ⟨x, List.mem_singleton_self x, hc⟩
    | cons y rest2 =>
      rw [List.intersperse_cons₂, List.flatten_cons, List.flatten_cons] at hc
      rcases List.mem_append.mp hc with h | h
      · exact Or.inr ⟨x, List.mem_cons_self _ _, h⟩
      · rcases List.mem_append.mp h with h2 | h2
        · exact Or.inl h2
        · rcases ih h2 with h3 | ⟨l2, hl2, hc2⟩
          · exact Or.inl h3
          · exact Or.inr ⟨l2, List.mem_cons_of_mem _ hl2, hc2⟩

theorem urlencodeL_noHash (pairs : List (List Char × List Char)) : NoHash (urlencodeL pairs) := by
  intro c hc
  unfold urlencodeL at hc
  rcases mem_intersperse_chars hc with h | ⟨l2, hl2, hc2⟩
  · rcases List.mem_singleton.mp h with rfl
    decide
  · rcases List.mem_map.mp hl2 with ⟨kv, _, hdef⟩
    rw [← hdef] at hc2
    rcases List.mem_append.mp hc2 with h3 | h3
    · exact quotePlusL_noHash kv.1 c h3
    · rcases List.mem_cons.mp h3 with rfl | h4
      · decide
      · exact quotePlusL_noHash kv.2 c h4

theorem addParams_noHash {path params : List Char} (h1 : NoHash path) (h2 : NoHash params) :
    NoHash (addParams path params) := by
  unfold addParams
  split
  · exact h1
  · exact noHash_append h1 (noHash_cons (by decide) h2)

theorem addNetloc_noHash {netloc url0 : List Char} (h1 : NoHash netloc) (h2 : NoHash url0) :
    NoHash (addNetloc netloc url0) := by
  unfold addNetloc
  split
  · refine noHash_cons (by decide) (noHash_cons (by decide) (noHash_append h1 ?_))
    split
    · exact noHash_cons (by decide) h2
    · exact h2
  · exact h2

theorem addScheme_noHash {scheme url : List Char} (h1 : NoHash scheme) (h2 : NoHash url) :
    NoHash (addScheme scheme url) := by
  unfold addScheme
  split
  · exact h2
  · exact noHash_append h1 (noHash_cons (by decide) h2)

theorem addQuery_noHash {url query : List Char} (h1 : NoHash url) (h2 : NoHash query) :
    NoHash (addQuery url query) := by
  unfold addQuery
  split
  · exact h1
  · exact noHash_append h1 (noHash_cons (by decide) h2)

theorem urlunparseL_noHash (p : UrlParts) (h1 : NoHash p.scheme) (h2 : NoHash p.netloc)
    (h3 : NoHash p.path) (h4 : NoHash p.params) (h5 : NoHash p.query)
    (h6 : p.fragment = []) : NoHash (urlunparseL p) := by
  unfold urlunparseL
  rw [h6]
  show NoHash (addQuery (addScheme p.scheme (addNetloc p.netloc (addParams p.path p.params))) p.query)
  exact addQuery_noHash (addScheme_noHash h1 (addNetloc_noHash h2 (addParams_noHash h3 h4))) h5

theorem urlparseL_fragment_of_noHash (l : List Char) (h : NoHash l) :
    (urlparseL l).fragment = [] := by
  have hsub : NoHash (splitNetloc (splitSchemeUrl l).2).2 := fun c hc =>
    h c (splitSchemeUrl_snd_subset l c (splitNetloc_snd_subset _ c hc))
  show ((breakOnChar '#' (splitNetloc (splitSchemeUrl l).2).2).2).getD [] = []
  rw [breakOnChar_hash_none _ hsub]
  rfl

/-- C10: re-parsing the output of remove_tracking_params always yields an
empty fragment component — the normaliser removes the fragment in addition
to the tracking query parameters, for every input URL. -/
theorem c10_remove_tracking_params_fragment_empty (url : String) :
    urlFragmentOf (remove_tracking_params url) = "" := by
  have hfr : NoHash ((splitNetloc (splitSchemeUrl url.data).2).2.takeWhile (fun c => !(c = '#'))) := by
    intro c hc hch
    have hp := List.mem_takeWhile_imp hc
    rw [hch] at hp
    simp at hp
  have hq1 : NoHash (((splitNetloc (splitSchemeUrl url.data).2).2.takeWhile
      (fun c => !(c = '#'))).takeWhile (fun c => !(c = '?'))) :=
    fun c hc => hfr c ((List.takeWhile_sublist _).subset hc)
  have hpath : NoHash (urlparseL url.data).path := by
    show NoHash (splitParamsL (((splitNetloc (splitSchemeUrl url.data).2).2.takeWhile
      (fun c => !(c = '#'))).takeWhile (fun c => !(c = '?')))).1
    exact fun c hc => hq1 c (splitParamsL_fst_subset _ c hc)
  have hparams : NoHash (urlparseL url.data).params := by
    show NoHash (splitParamsL (((splitNetloc (splitSchemeUrl url.data).2).2.takeWhile
      (fun c => !(c = '#'))).takeWhile (fun c => !(c = '?')))).2
    exact fun c hc => hq1 c (splitParamsL_snd_subset _ c hc)
  have hscheme : NoHash (urlparseL url.data).scheme := splitSchemeUrl_scheme_noHash url.data
  have hnetloc : NoHash (urlparseL url.data).netloc :=
    splitNetloc_netloc_noHash (splitSchemeUrl url.data).2
  have hout : NoHash (urlunparseL
      { urlparseL url.data with
        query := urlencodeL (keptQuery (urlparseL url.data)), fragment := [] }) := by
    refine urlunparseL_noHash _ hscheme hnetloc hpath hparams ?_ rfl
    exact urlencodeL_noHash _
  have hdata : (remove_tracking_params url).data = urlunparseL
      { urlparseL url.data with
        query := urlencodeL (keptQuery (urlparseL url.data)), fragment := [] } := rfl
  show (⟨(urlparseL (remove_tracking_params url).data).fragment⟩ : String) = ""
  rw [hdata, urlparseL_fragment_of_noHash _ hout]

/-! ## Claim C1: self-referential URLs in source resolution -/

/-- The locators of the URL-type work items, in emission order. -/
def urlLocators (items : List WorkItem) : List String :=
  items.filterMap (fun it => if it.itemType = "url" then some it.url else none)

theorem urlLocators_append (a b : List WorkItem) :
    urlLocators (a ++ b) = urlLocators a ++ urlLocators b := by
  unfold urlLocators
  exact List.filterMap_append a b _

theorem addUrlItem_fold_spec (us : List String) (tt tu ti : String) (acc : ResolveAcc)
    (h1 : urlLocators acc.work_items = acc.unique_urls)
    (h2 : acc.seen_urls = acc.unique_urls) :
    urlLocators (us.foldl (addUrlItem tt tu ti) acc).work_items
        = us.foldl dedupStep acc.unique_urls ∧
      (us.foldl (addUrlItem tt tu ti) acc).seen_urls = us.foldl dedupStep acc.unique_urls ∧
      (us.foldl (addUrlItem tt tu ti) acc).unique_urls = us.foldl dedupStep acc.unique_urls := by
  induction us generalizing acc with
  | nil => exact ⟨h1, h2, rfl⟩
  | cons u rest ih =>
    simp only [List.foldl_cons]
    by_cases hmem : acc.seen_urls.contains u = true
    · have hstep : addUrlItem tt tu ti acc u = acc := by
        unfold addUrlItem; rw [if_pos hmem]
      have hd : dedupStep acc.unique_urls u = acc.unique_urls := by
        unfold dedupStep; rw [if_pos (h2 ▸ hmem)]
      rw [hstep, hd]
      exact ih acc h1 h2
    · have hstep : addUrlItem tt tu ti acc u =
          { acc with
            seen_urls := acc.seen_urls ++ [u]
            unique_urls := acc.unique_urls ++ [u]
            work_items := acc.work_items ++ [⟨"url", u, tt, tu, ti⟩] } := by
        unfold addUrlItem; rw [if_neg hmem]
      have hd : dedupStep acc.unique_urls u = acc.unique_urls ++ [u] := by
        unfold dedupStep; rw [if_neg (by rw [← h2]; exact hmem)]
      rw [hstep, hd]
      refine ih _ ?_ ?_
      · show urlLocators (acc.work_items ++ [⟨"url", u, tt, tu, ti⟩]) = acc.unique_urls ++ [u]
        rw [urlLocators_append, h1]
        rfl
      · show acc.seen_urls ++ [u] = acc.unique_urls ++ [u]
        rw [h2]

theorem resolveSources_fold_spec (liked : List LikedTweet) (acc : ResolveAcc)
    (h1 : urlLocators acc.work_items = acc.unique_urls)
    (h2 : acc.seen_urls = acc.unique_urls) :
    urlLocators (liked.foldl resolveStep acc).work_items
        = (liked.flatMap LikedTweet.urls).foldl dedupStep acc.unique_urls ∧
      (liked.foldl resolveStep acc).seen_urls
        = (liked.flatMap LikedTweet.urls).foldl dedupStep acc.unique_urls ∧
      (liked.foldl resolveStep acc).unique_urls
        = (liked.flatMap LikedTweet.urls).foldl dedupStep acc.unique_urls := by
  induction liked generalizing acc with
  | nil => exact ⟨h1, h2, rfl⟩
  | cons t ts ih =>
    simp only [List.foldl_cons, List.flatMap_cons, List.foldl_append]
    by_cases hurls : t.urls.isEmpty = true
    · have ht : t.urls = [] := by simpa using hurls
      have hstep : resolveStep acc t =
          (if pyTruthy (pyStripS t.text) then
            { acc with
              tweet_only_candidates := acc.tweet_only_candidates + 1
              work_items := acc.work_items ++
                [⟨"tweet",
                  (if pyTruthy (if pyTruthy t.tweet_id then "https://x.com/i/web/status/" ++ t.tweet_id else "")
                    then (if pyTruthy t.tweet_id then "https://x.com/i/web/status/" ++ t.tweet_id else "")
                    else "x://tweet/" ++ t.tweet_id),
                  pyStripS t.text,
                  (if pyTruthy t.tweet_id then "https://x.com/i/web/status/" ++ t.tweet_id else ""),
                  t.tweet_id⟩] }
          else acc) := by
        unfold resolveStep
        rw [if_neg (by simp [hurls])]
      rw [ht, hstep]
      by_cases htt : pyTruthy (pyStripS t.text) = true
      · rw [if_pos htt]
        refine ih _ ?_ h2
        show urlLocators (acc.work_items ++ [_]) = acc.unique_urls
        rw [urlLocators_append, h1]
        simp [urlLocators]
      · rw [if_neg htt]
        exact ih acc h1 h2
    · have hstep : resolveStep acc t =
          t.urls.foldl
            (addUrlItem (pyStripS t.text)
              (if pyTruthy t.tweet_id then "https://x.com/i/web/status/" ++ t.tweet_id else "")
              t.tweet_id) acc := by
        unfold resolveStep
        rw [if_pos (by simp [hurls])]
      rw [hstep]
      obtain ⟨g1, g2, g3⟩ := addUrlItem_fold_spec t.urls (pyStripS t.text)
        (if pyTruthy t.tweet_id then "https://x.com/i/web/status/" ++ t.tweet_id else "")
        t.tweet_id acc h1 h2
      obtain ⟨r1, r2, r3⟩ := ih _ (g1.trans g3.symm) (g2.trans g3.symm)
      rw [g3] at r1 r2 r3
      exact ⟨r1, r2, r3⟩

/-- C1 (amended): the source resolver applies only first-occurrence
deduplication to embedded URLs — the URL-item locators of a batch are
exactly the deduplicated concatenation of the batch's embedded URLs, with
no exclusion of URLs that point back at the embedding post's own
identifier (such a URL is emitted like any other, see the
counterexample). -/
theorem c1_resolver_no_self_filter (liked : List LikedTweet) :
    urlLocators (resolveSources liked).work_items
      = dedupFirst (liked.flatMap LikedTweet.urls) :=
  (resolveSources_fold_spec liked ⟨[], [], [], 0⟩ rfl rfl).1

/-- C1 counterexample row: a liked post whose text embeds the post's own
status URL. -/
def c1Row : XRow :=
  { id := "123", text := "see https://x.com/alice/status/123 now", note_text := "",
    article_plain_text := "", article_text := "", article_id := "",
    article_article_id := "", article_url := "", entities := [] }

/-- C1 counterexample: resolving a batch built from the row above emits a
URL work item whose locator resolves (by the client's own tweet-id
extraction, x_client.extract_tweet_id_from_url) to the identifier of the
very post it came from — no self-citation filter exists in the code. -/
theorem c1_counterexample :
    ((resolveSources (get_liked_tweets id [c1Row] 5)).work_items.filter
        (fun it => it.itemType = "url" && extract_tweet_id_from_url it.url == some it.tweet_id))
      = [⟨"url", "https://x.com/alice/status/123", "see https://x.com/alice/status/123 now",
          "https://x.com/i/web/status/123", "123"⟩] := by decide

/-! ## Claim C4: terminal-state invariant -/

theorem handleExn_state_invariant (env : PipelineEnv) (e : PyExn) (stage : Option String)
    (prog : List Nat) (events : List Event) :
    ((handleExn env e stage prog events).status = "done" →
        (handleExn env e stage prog events).result.isSome = true ∧
          (handleExn env e stage prog events).error = none) ∧
      ((handleExn env e stage prog events).status = "error" →
        (handleExn env e stage prog events).result = none ∧
          (handleExn env e stage prog events).error.isSome = true) := by
  simp only [handleExn]
  split
  · split
    · split
      · split
        · constructor <;> intro h <;> simp_all
        · split
          · constructor <;> intro h <;> simp_all
          · constructor <;> intro h <;> simp_all
      · constructor <;> intro h <;> simp_all
    · constructor <;> intro h <;> simp_all
  · constructor <;> intro h <;> simp_all

theorem runMain_state_invariant (env : PipelineEnv) (liked : List LikedTweet)
    (events0 : List Event) (prog0 : List Nat) (work_items : List WorkItem)
    (unique_urls : List String) (stage0 : String) :
    ((runMain env liked events0 prog0 work_items unique_urls stage0).status = "done" →
        (runMain env liked events0 prog0 work_items unique_urls stage0).result.isSome = true ∧
          (runMain env liked events0 prog0 work_items unique_urls stage0).error = none) ∧
      ((runMain env liked events0 prog0 work_items unique_urls stage0).status = "error" →
        (runMain env liked events0 prog0 work_items unique_urls stage0).result = none ∧
          (runMain env liked events0 prog0 work_items unique_urls stage0).error.isSome = true) := by
  simp only [runMain]
  split
  · exact handleExn_state_invariant env _ _ _ _
  · split
    · exact handleExn_state_invariant env _ _ _ _
    · constructor <;> intro h <;> simp_all

/-- C4: in every terminal state run_pipeline can reach, a done status
implies the result is present and the error message absent, and an error
status implies the result is absent and the error message present. -/
theorem c4_terminal_state_invariant (env : PipelineEnv) :
    ((run_pipeline env).status = "done" →
        (run_pipeline env).result.isSome = true ∧ (run_pipeline env).error = none) ∧
      ((run_pipeline env).status = "error" →
        (run_pipeline env).result = none ∧ (run_pipeline env).error.isSome = true) := by
  simp only [run_pipeline]
  split
  · exact handleExn_state_invariant env _ _ _ _
  · split
    · split
      · exact runMain_state_invariant env _ _ _ _ _ _
      · exact handleExn_state_invariant env _ _ _ _
    · exact runMain_state_invariant env _ _ _ _ _ _

/-! ## Claim C2: the 402 entitlement fallback -/

/-- A fetch outcome with usable article content, for the concrete
environments below. -/
def okArticle (u : String) : ArticleResult :=
  { url := u, final_url := u, title := "T", content := "body text", method := "readability" }

/-- A failed fetch outcome, for the concrete environments below. -/
def noArticle (u : String) : ArticleResult :=
  { url := u, final_url := u, title := u, content := "", method := "request_failed",
    ok := false, error := some "request_failed: connection error" }

/-- Environment observing a 402 on the candidate fetch, one configured
fallback URL that extracts successfully, and succeeding collaborators. -/
def c2OkEnv : PipelineEnv :=
  { liked := .error (.xapi "get liked_tweets: payment required (402)." (some 402)),
    fallbackUrls := ["https://fallback.example/a"],
    fetchArticle := okArticle,
    compose := fun _ => .ok "script",
    tts := fun _ => .ok () }

/-- As c2OkEnv but every fallback URL fails to extract. -/
def c2FailEnv : PipelineEnv :=
  { liked := .error (.xapi "get liked_tweets: payment required (402)." (some 402)),
    fallbackUrls := ["https://fallback.example/a"],
    fetchArticle := noArticle,
    compose := fun _ => .ok "script",
    tts := fun _ => .ok () }

/-- C2 counterexample: a 402 with a non-empty static fallback list does not
guarantee a done status — when no fallback URL yields usable content the
job terminates with an error status instead. -/
theorem c2_counterexample :
    c2FailEnv.fallbackUrls ≠ [] ∧ (run_pipeline c2FailEnv).status = "error" := by
  constructor
  · decide
  · rfl

/-- C2 (amended): on a 402 from the candidate fetch, if the static fallback
list is non-empty, at least one fallback URL yields usable content, and the
compose and synthesis collaborators succeed, the job terminates done with a
result whose note field is present; if the static fallback list is empty
the job terminates with an error status. -/
theorem c2_access_denied_fallback (env : PipelineEnv) (m : String)
    (hl : env.liked = Except.error (.xapi m (some 402))) :
    ((env.fallbackUrls.isEmpty = false →
        (fallbackMaterials env).1.isEmpty = false →
        ∀ script, env.compose (fallbackMaterials env).1 = .ok script →
          env.tts script = .ok () →
          (run_pipeline env).status = "done" ∧
            ∃ p, (run_pipeline env).result = some p ∧ p.note.isSome = true)) ∧
      (env.fallbackUrls = [] → (run_pipeline env).status = "error") := by
  constructor
  · intro hfb hfm script hcomp htts
    simp only [run_pipeline, hl]
    simp only [handleExn, hfb, hfm, Bool.not_false, if_true, hcomp, htts]
    refine ⟨by trivial, ?_⟩
    exact ⟨_, rfl, rfl⟩
  · intro hfb
    simp only [run_pipeline, hl]
    simp only [handleExn, hfb]
    rfl

/-- C2 witness: the amended behaviour at the concrete succeeding
environment. -/
theorem c2_access_denied_fallback_witness :
    (run_pipeline c2OkEnv).status = "done" ∧
      ∃ p, (run_pipeline c2OkEnv).result = some p ∧ p.note.isSome = true :=
  (c2_access_denied_fallback c2OkEnv "get liked_tweets: payment required (402)." rfl).1
    (by decide) (by decide) "script" rfl rfl

/-! ## Claim C3: the compose-failure template fallback -/

/-- The per-item loop state of the non-fallback branch of run_pipeline, as
runMain computes it. -/
def mainLoopAcc (env : PipelineEnv) (liked : List LikedTweet) : LoopAcc :=
  processLoop env (resolveSources liked).work_items.length (resolveSources liked).work_items 1
    ⟨[], [], [], [], "extract_sources"⟩

theorem fallback_script_ne_empty (ms : List Material) : fallback_script ms ≠ "" := by
  intro h
  have hlen := congrArg String.length h
  rw [show fallback_script ms
      = "おはようございます。通勤向けニュースダイジェストです。" ++ "\n" ++
        joinNl ("本日は、いいねした投稿と記事から情報をじっくりお届けします。" :: "" ::
          ((ms.enum.map (fun p => fallbackMaterialLines (p.1 + 1) p.2)).flatten ++
            ["以上、通勤向けニュースダイジェストでした。"])) from rfl] at hlen
  rw [String.length_append, String.length_append] at hlen
  have hpos : 0 < "おはようございます。通勤向けニュースダイジェストです。".length := by decide
  simp only [String.length_empty] at hlen
  omega

/-- C3: with at least one work item resolved from the liked batch, a
non-empty materials list after per-item extraction, a compose collaborator
that fails on every call, and succeeding synthesis, the job still reaches a
done status, its stored script is exactly the deterministic template script
over the materials, that script is non-empty, and the warning event is
recorded. -/
theorem c3_compose_failure_falls_back (env : PipelineEnv) (liked : List LikedTweet)
    (hl : env.liked = Except.ok liked)
    (hwi : (resolveSources liked).work_items ≠ [])
    (hm : (mainLoopAcc env liked).materials ≠ [])
    (hcomp : ∀ ms, ∃ e, env.compose ms = .error e)
    (htts : ∀ s, env.tts s = .ok ()) :
    (run_pipeline env).status = "done" ∧
      (∃ p, (run_pipeline env).result = some p ∧
        p.episodeScript = fallback_script (mainLoopAcc env liked).materials) ∧
      fallback_script (mainLoopAcc env liked).materials ≠ "" ∧
      (⟨"compose_script", "warning", "compose_failed_fallback_used"⟩ : Event)
        ∈ (run_pipeline env).events := by
  obtain ⟨e, he⟩ := hcomp (mainLoopAcc env liked).materials
  have hwi' : (resolveSources liked).work_items.isEmpty = false := by
    simpa using hwi
  have hm' : (mainLoopAcc env liked).materials.isEmpty = false := by
    simpa using hm
  simp only [run_pipeline, hl, hwi', Bool.false_eq_true, if_false]
  simp only [runMain]
  rw [show processLoop env (resolveSources liked).work_items.length
    (resolveSources liked).work_items 1 ⟨[], [], [], [], "extract_sources"⟩
      = mainLoopAcc env liked from rfl]
  simp only [hm', Bool.false_eq_true, if_false, he, htts]
  refine ⟨by trivial, ⟨_, rfl, rfl⟩, fallback_script_ne_empty _, ?_⟩
  simp [List.mem_append]

/-- Environment with one tweet-only liked post and an always-failing
compose collaborator. -/
def c3Env : PipelineEnv :=
  { liked := .ok [⟨"1", "hello tweet", []⟩],
    fallbackUrls := [],
    fetchArticle := noArticle,
    compose := fun _ => .error "compose boom",
    tts := fun _ => .ok () }

/-- C3 witness: the template fallback at the concrete environment. -/
theorem c3_compose_failure_falls_back_witness :
    (run_pipeline c3Env).status = "done" ∧
      (∃ p, (run_pipeline c3Env).result = some p ∧
        p.episodeScript = fallback_script (mainLoopAcc c3Env [⟨"1", "hello tweet", []⟩]).materials) ∧
      fallback_script (mainLoopAcc c3Env [⟨"1", "hello tweet", []⟩]).materials ≠ "" ∧
      (⟨"compose_script", "warning", "compose_failed_fallback_used"⟩ : Event)
        ∈ (run_pipeline c3Env).events :=
  c3_compose_failure_falls_back c3Env [⟨"1", "hello tweet", []⟩] rfl (by decide) (by decide)
    (fun _ => ⟨"compose boom", rfl⟩) (fun _ => rfl)

/-! ## Claim C6: gates and titles of the native long-form strategy -/

/-- Environment whose tweepy call returns a two-character plain text. -/
def c6TweepyEnv : XFetchEnv :=
  { tweepy := .ok ⟨"", "hi"⟩, synd := .err "unused" }

/-- C6 counterexample: on the authenticated structured-fetch path the
strategy succeeds with a two-character text (no twenty-character gate) and
the title is the constant X-post label rather than anything derived from
the author handle. -/
theorem c6_counterexample :
    (fetch_x_status_text c6TweepyEnv "https://x.com/a/status/1").map
        (fun r => (r.content.length, r.title, r.method))
      = some (2, "X投稿", "x_tweepy_v2_note_tweet") := by decide

theorem tweepyFetchResult_spec (t : TweepyOutcome) (url : String) (r : ArticleResult)
    (h : tweepyFetchResult t url = some r) :
    r.method = "x_tweepy_v2_note_tweet" ∧ r.title = "X投稿" ∧ r.content ≠ "" := by
  unfold tweepyFetchResult at h
  split at h
  · split at h
    · next hfull =>
      obtain rfl := Option.some.injEq _ _ ▸ h
      refine ⟨rfl, rfl, ?_⟩
      simpa [pyTruthy] using hfull
    · exact absurd h (by simp)
  · exact absurd h (by simp)

theorem syndFetchResult_spec (s : SyndOutcome) (url : String) (r : ArticleResult)
    (h : syndFetchResult s url = some r) :
    r.method = "x_syndication" ∧ 20 ≤ r.content.length ∧
      ∀ text sn, s = .ok text sn → r.title = syndTitle sn := by
  unfold syndFetchResult at h
  split at h
  · exact absurd h (by simp)
  · next rawText screen_name =>
    split at h
    · exact absurd h (by simp)
    · next hlen =>
      obtain rfl := Option.some.injEq _ _ ▸ h
      refine ⟨rfl, ?_, ?_⟩
      · show 20 ≤ (compact_text (pyStripS rawText) 10000).length
        omega
      · intro text sn hs
        obtain ⟨rfl, rfl⟩ := SyndOutcome.ok.injEq _ _ _ _ ▸ hs
        rfl

/-- C6 (amended): on the public syndication path the strategy succeeds only
with at least twenty characters of text and derives its title from the
author screen name; on the authenticated structured-fetch path, by
contrast, any non-empty text succeeds and the title is the constant X-post
label (the claimed gate and handle-derived title hold only on the
syndication path). -/
theorem c6_native_strategy_gates (env : XFetchEnv) (url : String) (r : ArticleResult)
    (h : fetch_x_status_text env url = some r) :
    (r.method = "x_syndication" →
        20 ≤ r.content.length ∧ ∀ text sn, env.synd = .ok text sn → r.title = syndTitle sn) ∧
      (r.method = "x_tweepy_v2_note_tweet" → r.title = "X投稿" ∧ r.content ≠ "") := by
  unfold fetch_x_status_text at h
  split at h
  · exact absurd h (by simp)
  · split at h
    · next r2 hr2 =>
      obtain rfl := Option.some.injEq _ _ ▸ h
      obtain ⟨hm, ht, hc⟩ := tweepyFetchResult_spec env.tweepy url r2 hr2
      constructor
      · intro hs
        rw [hm] at hs
        exact absurd hs (by decide)
      · intro _
        exact ⟨ht, hc⟩
    · obtain ⟨hm, hlen, htitle⟩ := syndFetchResult_spec env.synd url r h
      constructor
      · intro _
        exact ⟨hlen, htitle⟩
      · intro hs
        rw [hm] at hs
        exact absurd hs (by decide)

/-- C6 witness: the syndication-path facts at a concrete environment. -/
theorem c6_native_strategy_gates_witness :
    20 ≤ ((fetch_x_status_text ⟨.unavailable, .ok "this text is long enough to pass" "alice"⟩
        "https://x.com/a/status/1").getD (noArticle "")).content.length ∧
      ((fetch_x_status_text ⟨.unavailable, .ok "this text is long enough to pass" "alice"⟩
        "https://x.com/a/status/1").getD (noArticle "")).title = syndTitle "alice" := by
  have h := c6_native_strategy_gates ⟨.unavailable, .ok "this text is long enough to pass" "alice"⟩
    "https://x.com/a/status/1"
    ((fetch_x_status_text ⟨.unavailable, .ok "this text is long enough to pass" "alice"⟩
        "https://x.com/a/status/1").getD (noArticle "")) (by decide)
  obtain ⟨hsynd, _⟩ := h
  obtain ⟨h1, h2⟩ := hsynd (by decide)
  exact ⟨h1, h2 _ _ rfl⟩

/-! ## Claim C5: monotone priority of the extraction strategy chain -/

/-- Written from the specification's fixed strategy order, not from the
source: the first strategy among native post, readability, trafilatura,
JS-wall reader, unconditional reader, and metadata fallback whose quality
gate passes, evaluated over the same collaborator outcomes the cascade
observes; a failed primary fetch is reported as the request-failed
outcome. -/
def specFirstStrategy (env : FetchEnv) (url : String) : String :=
  match fetch_x_status_text env.x url with
  | some r => r.method
  | none =>
    match env.http with
    | .error _ => "request_failed"
    | .ok resp =>
      let final_url := if pyTruthy resp.resp_url then resp.resp_url else url
      if (match env.readability with
          | .error _ => false
          | .ok doc => 200 < (compact_text (strip_html_tags doc.summary_html) 10000).length) then
        "readability"
      else if (match env.trafilatura with
          | .error _ => false
          | .ok none => false
          | .ok (some extracted) => pyTruthy extracted && 200 < (pyStripS extracted).length) then
        "trafilatura"
      else if looks_like_js_wall resp.html && 200 < (pyStripS (env.jina final_url)).length then
        "jina_reader_js_fallback"
      else if 300 < (pyStripS (env.jina final_url)).length then
        "jina_reader_fallback"
      else "metadata_fallback"

theorem extract_title_description_method (html final_url : String) :
    (extract_title_description html final_url).method = "metadata_fallback" := rfl

set_option maxHeartbeats 2000000 in
/-- C5: the strategy the cascade reports is always the first strategy in
the specification's fixed priority order whose quality gate passes — once a
strategy clears its gate the cascade returns, so no lower-priority strategy
can be the one used. -/
theorem c5_first_passing_strategy (env : FetchEnv) (url : String) :
    (fetch_article env url).method = specFirstStrategy env url := by
  simp only [fetch_article, specFirstStrategy]
  split
  · rfl
  · split
    · rfl
    · next resp =>
      rcases hrd : env.readability with e | doc
      all_goals rcases htf : env.trafilatura with e2 | tf
      all_goals try rcases tf with _ | extracted
      all_goals simp only [hrd, htf]
      all_goals split_ifs <;> try simp_all [extract_title_description_method]
      all_goals omega

/-! ## Claim C9: monotonicity of the progress writes -/

/-- Whether a sequence of progress values never decreases between
consecutive writes. -/
def isMonotone : List Nat → Bool
  | [] => true
  | [_] => true
  | a :: b :: rest => a ≤ b && isMonotone (b :: rest)

theorem isMonotone_iff_chain (l : List Nat) :
    isMonotone l = true ↔ List.Chain' (fun a b => a ≤ b) l := by
  induction l with
  | nil => simp [isMonotone]
  | cons a rest ih =>
    cases rest with
    | nil => simp [isMonotone]
    | cons b r2 =>
      rw [List.chain'_cons]
      simp only [isMonotone, Bool.and_eq_true, decide_eq_true_eq]
      rw [ih]

theorem mem_of_mem_getLast? {l : List Nat} {a : Nat} (h : a ∈ l.getLast?) : a ∈ l := by
  obtain ⟨hne, rfl⟩ := List.mem_getLast?_eq_getLast h
  exact List.getLast_mem hne

/-- The progress values the per-item loop writes, in order: one value per
URL-type item, none for tweet items. -/
def itemTrace (total : Nat) : Nat → List WorkItem → List Nat
  | _, [] => []
  | idx, item :: rest =>
    (if item.itemType = "url" then [itemProgress idx total] else []) ++ itemTrace total (idx + 1) rest

theorem processItem_trace (env : PipelineEnv) (total idx : Nat) (item : WorkItem) (acc : LoopAcc) :
    (processItem env total idx item acc).trace
      = acc.trace ++ (if item.itemType = "url" then [itemProgress idx total] else []) := by
  unfold processItem
  split
  · dsimp only
    split
    · rfl
    · split
      · rfl
      · rfl
  · simp only [List.append_nil]
    split
    · split
      · rfl
      · rfl
    · rfl

theorem processLoop_trace (env : PipelineEnv) (total : Nat) (items : List WorkItem) :
    ∀ (idx : Nat) (acc : LoopAcc),
      (processLoop env total items idx acc).trace = acc.trace ++ itemTrace total idx items := by
  induction items with
  | nil => intro idx acc; simp [processLoop, itemTrace]
  | cons item rest ih =>
    intro idx acc
    simp only [processLoop, itemTrace]
    rw [ih (idx + 1) _, processItem_trace, List.append_assoc]

theorem itemProgress_mono (total j : Nat) : itemProgress j total ≤ itemProgress (j + 1) total := by
  unfold itemProgress
  have h : 45 * j ≤ 45 * (j + 1) := by omega
  exact Nat.add_le_add_left (Nat.div_le_div_right h) 15

theorem itemProgress_le_60 (total j : Nat) (h1 : j ≤ total) : itemProgress j total ≤ 60 := by
  unfold itemProgress
  rcases Nat.eq_zero_or_pos total with h | h
  · subst h
    simp
  · have h2 : 45 * j / total ≤ 45 := by
      calc 45 * j / total ≤ 45 * total / total := Nat.div_le_div_right (by omega)
      _ = 45 := Nat.mul_div_cancel 45 h
    omega

theorem itemTrace_spec (total : Nat) (items : List WorkItem) : ∀ idx : Nat,
    List.Chain' (fun a b => a ≤ b) (itemTrace total idx items) ∧
      ∀ v ∈ itemTrace total idx items,
        itemProgress idx total ≤ v ∧
          ∃ j, idx ≤ j ∧ j < idx + items.length ∧ v = itemProgress j total := by
  induction items with
  | nil =>
    intro idx
    constructor
    · simp [itemTrace]
    · intro v hv; simp [itemTrace] at hv
  | cons item rest ih =>
    intro idx
    obtain ⟨ihc, ihb⟩ := ih (idx + 1)
    by_cases hu : item.itemType = "url"
    · constructor
      · simp only [itemTrace, hu, if_pos, List.singleton_append]
        rw [List.chain'_cons']
        constructor
        · intro y hy
          have hym := List.mem_of_mem_head? hy
          calc itemProgress idx total ≤ itemProgress (idx + 1) total := itemProgress_mono _ _
          _ ≤ y := (ihb y hym).1
        · exact ihc
      · intro v hv
        simp only [itemTrace, hu, if_pos, List.singleton_append] at hv
        rcases List.mem_cons.mp hv with rfl | hv2
        · exact ⟨Nat.le_refl _, idx, Nat.le_refl _, by simp, rfl⟩
        · obtain ⟨h1, j, hj1, hj2, hj3⟩ := ihb v hv2
          refine ⟨?_, j, by omega, by simp only [List.length_cons]; omega, hj3⟩
          calc itemProgress idx total ≤ itemProgress (idx + 1) total := itemProgress_mono _ _
          _ ≤ v := h1
    · constructor
      · simp only [itemTrace, hu, if_neg, List.nil_append]
        exact ihc
      · intro v hv
        simp only [itemTrace, hu, if_neg, List.nil_append] at hv
        obtain ⟨h1, j, hj1, hj2, hj3⟩ := ihb v hv
        refine ⟨?_, j, by omega, by simp only [List.length_cons]; omega, hj3⟩
        calc itemProgress idx total ≤ itemProgress (idx + 1) total := itemProgress_mono _ _
        _ ≤ v := h1

theorem handleExn_runtime_trace (env : PipelineEnv) (m : String) (st : Option String)
    (prog : List Nat) (ev : List Event) :
    (handleExn env (.runtime m) st prog ev).progressTrace = prog ++ [100] := rfl

theorem handleExn_trace_monotone (env : PipelineEnv) (e : PyExn) (st : Option String)
    (prog : List Nat) (ev : List Event)
    (hp : List.Chain' (fun a b => a ≤ b) prog)
    (hall : ∀ x ∈ prog, x ≤ 20) :
    List.Chain' (fun a b => a ≤ b) (handleExn env e st prog ev).progressTrace := by
  have happ : ∀ (tail : List Nat), List.Chain' (fun a b => a ≤ b) tail →
      (∀ y ∈ tail.head?, 20 ≤ y) →
      List.Chain' (fun a b => a ≤ b) (prog ++ tail) := by
    intro tail hc hhead
    refine List.chain'_append.mpr ⟨hp, hc, ?_⟩
    intro x hx y hy
    have h1 := hall x (mem_of_mem_getLast? hx)
    have h2 := hhead y hy
    omega
  have h20100 : List.Chain' (fun a b => a ≤ b) (prog ++ [20] ++ [100]) := by
    rw [List.append_assoc]
    refine happ ([20] ++ [100]) ?_ ?_
    · simp [List.chain'_cons]
    · intro y hy
      simp only [List.singleton_append, List.head?_cons, Option.mem_def, Option.some.injEq] at hy
      omega
  have h100 : List.Chain' (fun a b => a ≤ b) (prog ++ [100]) := by
    refine happ [100] (by simp) ?_
    intro y hy
    simp only [List.head?_cons, Option.mem_def, Option.some.injEq] at hy
    omega
  have h20 : List.Chain' (fun a b => a ≤ b) (prog ++ [20]) := by
    refine happ [20] (by simp) ?_
    intro y hy
    simp only [List.head?_cons, Option.mem_def, Option.some.injEq] at hy
    omega
  simp only [handleExn]
  split
  · split
    · split
      · split
        · exact h20
        · split
          · exact h20
          · exact h20100
      · exact h20100
    · exact h100
  · exact h100

theorem runMain_trace_monotone (env : PipelineEnv) (liked : List LikedTweet)
    (events0 : List Event) (prog0 : List Nat) (work_items : List WorkItem)
    (unique_urls : List String) (stage0 : String)
    (hp : List.Chain' (fun a b => a ≤ b) prog0)
    (hall : ∀ x ∈ prog0, x ≤ 20)
    (hb1 : ∀ x ∈ prog0.getLast?, x ≤ itemProgress 1 work_items.length) :
    List.Chain' (fun a b => a ≤ b)
      (runMain env liked events0 prog0 work_items unique_urls stage0).progressTrace := by
  obtain ⟨htc, htb⟩ := itemTrace_spec work_items.length work_items 1
  have htr0 : (processLoop env work_items.length work_items 1 ⟨[], [], [], [], stage0⟩).trace
      = itemTrace work_items.length 1 work_items := by
    rw [processLoop_trace]
    simp
  have hTle : ∀ v ∈ itemTrace work_items.length 1 work_items, v ≤ 60 := by
    intro v hv
    obtain ⟨_, j, hj1, hj2, hj3⟩ := htb v hv
    subst hj3
    exact itemProgress_le_60 _ _ (by omega)
  have hchainPT : List.Chain' (fun a b => a ≤ b)
      (prog0 ++ itemTrace work_items.length 1 work_items) := by
    refine List.chain'_append.mpr ⟨hp, htc, ?_⟩
    intro x hx y hy
    calc x ≤ itemProgress 1 work_items.length := hb1 x hx
    _ ≤ y := (htb y (List.mem_of_mem_head? hy)).1
  have hPTle : ∀ x ∈ prog0 ++ itemTrace work_items.length 1 work_items, x ≤ 60 := by
    intro x hx
    rcases List.mem_append.mp hx with h | h
    · have := hall x h; omega
    · exact hTle x h
  have hfinish : ∀ (tail : List Nat), List.Chain' (fun a b => a ≤ b) tail →
      (∀ y ∈ tail.head?, 60 ≤ y) →
      List.Chain' (fun a b => a ≤ b)
        ((prog0 ++ itemTrace work_items.length 1 work_items) ++ tail) := by
    intro tail hc hhead
    refine List.chain'_append.mpr ⟨hchainPT, hc, ?_⟩
    intro x hx y hy
    have h1 := hPTle x (mem_of_mem_getLast? hx)
    have h2 := hhead y hy
    omega
  simp only [runMain, htr0]
  split
  · rw [handleExn_runtime_trace]
    refine hfinish [100] (by simp) ?_
    intro y hy
    simp only [List.head?_cons, Option.mem_def, Option.some.injEq] at hy
    omega
  · have hchain789 : List.Chain' (fun a b => a ≤ b)
        ((prog0 ++ itemTrace work_items.length 1 work_items) ++ [70, 80, 90] ++ [100]) := by
      rw [List.append_assoc]
      refine hfinish ([70, 80, 90] ++ [100]) ?_ ?_
      · simp [List.chain'_cons]
      · intro y hy
        simp only [List.cons_append, List.head?_cons, Option.mem_def, Option.some.injEq] at hy
        omega
    split
    · rw [handleExn_runtime_trace]
      exact hchain789
    · exact hchain789

/-- C9 (amended): the progress writes of one run never decrease, provided
the static fallback list holds at most nine URLs — with ten or more, the
empty-candidates restart writes twenty and the first per-item interpolated
value is lower (see the counterexample); every other path is monotone
unconditionally. -/
theorem c9_progress_monotone (env : PipelineEnv) (hfb : env.fallbackUrls.length ≤ 9) :
    isMonotone (run_pipeline env).progressTrace = true := by
  rw [isMonotone_iff_chain]
  simp only [run_pipeline]
  split
  · exact handleExn_trace_monotone env _ _ _ _ (by simp) (by intro x hx; simp at hx; omega)
  · split
    · split
      · next hfbne =>
        refine runMain_trace_monotone env _ _ _ _ _ _ (by simp [List.chain'_cons])
          (by intro x hx; simp at hx; omega) ?_
        intro x hx
        have hlen : 0 < env.fallbackUrls.length := by
          rcases henv : env.fallbackUrls with _ | ⟨u, us⟩
          · rw [henv] at hfbne; simp at hfbne
          · simp [henv]
        have hx20 : x = 20 := (by simpa using hx : 20 = x).symm
        subst hx20
        have h58 : (45 : Nat) / 9 ≤ 45 / env.fallbackUrls.length :=
          Nat.div_le_div_left hfb hlen
        have h5 : (45 : Nat) / 9 = 5 := by decide
        simp only [List.length_map]
        unfold itemProgress
        simp only [Nat.mul_one]
        omega
      · exact handleExn_trace_monotone env _ _ _ _ (by simp [List.chain'_cons])
          (by intro x hx; simp at hx; omega)
    · refine runMain_trace_monotone env _ _ _ _ _ _ (by simp [List.chain'_cons])
        (by intro x hx; simp at hx; omega) ?_
      intro x hx
      have hx15 : x = 15 := (by simpa using hx : 15 = x).symm
      subst hx15
      unfold itemProgress
      exact Nat.le_add_right 15 _

/-- C9 witness: a monotone run at a concrete environment with a single
fallback URL. -/
theorem c9_progress_monotone_witness :
    c2FailEnv.fallbackUrls.length ≤ 9 ∧
      isMonotone (run_pipeline c2FailEnv).progressTrace = true :=
  ⟨by decide, c9_progress_monotone c2FailEnv (by decide)⟩

/-- Environment with no processable likes and ten configured fallback
URLs. -/
def c9Env : PipelineEnv :=
  { liked := .ok [],
    fallbackUrls := ["u1", "u2", "u3", "u4", "u5", "u6", "u7", "u8", "u9", "u10"],
    fetchArticle := noArticle,
    compose := fun _ => .ok "s",
    tts := fun _ => .ok () }

/-- C9 counterexample: with ten fallback URLs the empty-candidates restart
writes twenty and the first per-item interpolation then writes nineteen —
the progress sequence of this run decreases. -/
theorem c9_counterexample :
    (run_pipeline c9Env).progressTrace
        = [5, 15, 20, 19, 24, 28, 33, 37, 42, 46, 51, 55, 60, 100] ∧
      isMonotone (run_pipeline c9Env).progressTrace = false := by
  constructor
  · rfl
  · rfl
